import Mathlib

/-!
A shallow embedding of the permission-grant and EOD-report core of the
`project-management` backend (TypeScript/Express/Mongoose), together with
proofs of its specified properties.

Modelling conventions:
* document ids, user ids, project ids and task ids are `Nat`;
* wall-clock instants are `Nat` (milliseconds since epoch); Mongo date
  comparisons `$gt`/`$lte` become `<`/`≤` on `Nat`;
* a Mongo collection is a `List` of records; `findOne` is `List.find?`,
  `updateMany`/per-document `save` are `List.map` keyed on `_id`
  (primary-key uniqueness of `_id` is carried as a `Nodup` hypothesis);
* zod schema validation is a `Bool`-valued check on the parsed input
  structure; optional JSON fields are `Option`; zod `.default` is `getD`;
* JavaScript truthiness of `x.progress || 0` on a `0..100` number is
  `Option.getD 0` (0 is falsy and maps to 0 either way), and truthiness of
  an optional string is "present and non-empty";
* notification creation is recorded as events where a claim needs the
  order of side effects, and omitted otherwise (the source treats
  notification failure as non-fatal).
-/

namespace ProjMgmt

/-- `UserRole` enum from `User.model.ts`. -/
inductive UserRole where
  | MANAGER
  | GROUP_HEAD
  | TEAM_LEAD
  | DEVELOPER
deriving DecidableEq, Repr

/-- `EODStatus` enum from `EODReport.model.ts`. -/
inductive EODStatus where
  | DRAFT
  | SUBMITTED
deriving DecidableEq, Repr

/-- `EODTaskStatus` enum from `WeeklySummary.model.ts`. -/
inductive EODTaskStatus where
  | COMPLETED
  | IN_PROGRESS
deriving DecidableEq, Repr

/-- One day in milliseconds: `setDate(getDate() + d)` steps of the source. -/
def dayMs : Nat := 86400000

/-- Truthiness of an optional string field in the JS source
(`data.blockersText ? 1 : 0`): present and non-empty. -/
def strTruthy : Option String → Bool
  | some s => s ≠ ""
  | none => false

/-- `TemporaryPermission` document (`TemporaryPermission.model.ts`). -/
structure TemporaryPermission where
  _id : Nat
  userId : Nat
  projectId : Nat
  grantedBy : Nat
  expiresAt : Nat
  isActive : Bool
  reason : Option String
deriving DecidableEq, Repr

/-- The query predicate `{ userId, projectId, isActive: true,
expiresAt: { $gt: now } }` used by the grant/approve/request paths. -/
def activePredicate (u p now : Nat) (q : TemporaryPermission) : Bool :=
  q.userId == u && q.projectId == p && q.isActive && now < q.expiresAt

/-- `TemporaryPermission.findOne({userId, projectId, isActive: true,
expiresAt: {$gt: now}})`. -/
def findActivePermission (perms : List TemporaryPermission) (u p now : Nat) :
    Option TemporaryPermission :=
  perms.find? (activePredicate u p now)

/-- Replace the document with the given `_id` (Mongoose `doc.save()` writes
back by primary key). -/
def updatePermById (perms : List TemporaryPermission) (id : Nat)
    (f : TemporaryPermission → TemporaryPermission) : List TemporaryPermission :=
  perms.map fun q => if q._id == id then f q else q

/-- Body of `grantTemporaryPermissionSchema` after zod parsing:
`durationDays` optional int in `[1,90]` (default 7), `customExpiryDate`
optional date, `reason` optional string of length ≤ 500. -/
structure GrantInput where
  userId : Nat
  projectId : Nat
  durationDays : Option Nat
  customExpiryDate : Option Nat
  reason : Option String
deriving DecidableEq, Repr

/-- zod validation of `grantTemporaryPermissionSchema`. -/
def grantSchemaValid (i : GrantInput) : Bool :=
  (match i.durationDays with
   | some d => decide (1 ≤ d) && decide (d ≤ 90)
   | none => true) &&
  (match i.reason with
   | some s => decide (s.length ≤ 500)
   | none => true)

/-- Error kinds surfaced by the permission controllers, by HTTP
status/message in the source. -/
inductive PermError where
  | ValidationFailed
  | InsufficientPermissions
  | UserNotFound
  | UserNotDeveloper
  | ProjectNotFound
  | ExpiryNotFuture
  | PermissionNotFound
  | RequestNotFound
  | AlreadyReviewed
  | RequesterNotDeveloper
  | AlreadyPending
  | AlreadyGranted
deriving DecidableEq, Repr

/-- External collaborators read by the permission controllers: the user
table (id ↦ role) and the project table (existing ids). -/
structure Env where
  users : List (Nat × UserRole)
  projects : List Nat
deriving Repr

/-- `User.findById`, projected to the role (all the controllers read). -/
def lookupUser (env : Env) (id : Nat) : Option UserRole :=
  (env.users.find? fun u => u.1 == id).map (·.2)

/-- Core of `grantTemporaryPermission` after the expiry date is computed:
merge into an existing active row, or insert a new one. -/
def grantCore (perms : List TemporaryPermission) (now grantorId freshId : Nat)
    (input : GrantInput) (expiresAt : Nat) :
    Except PermError Unit × List TemporaryPermission :=
  match findActivePermission perms input.userId input.projectId now with
  | some existing =>
      (Except.ok (),
       updatePermById perms existing._id fun q =>
         { q with expiresAt := expiresAt, grantedBy := grantorId,
                  reason := input.reason })
  | none =>
      (Except.ok (),
       perms ++ [{ _id := freshId, userId := input.userId,
                   projectId := input.projectId, grantedBy := grantorId,
                   expiresAt := expiresAt, isActive := true,
                   reason := input.reason }])

/-- `grantTemporaryPermission` controller body
(`temporaryPermission.controller.ts`): schema parse, role check, target
user existence and role, project existence, expiry computation, then
merge-or-insert.  Returns the result and the permission table afterwards
(unchanged on every error path, which all precede the write). -/
def grantTemporaryPermission (env : Env) (perms : List TemporaryPermission)
    (now grantorId : Nat) (grantorRole : UserRole) (freshId : Nat)
    (input : GrantInput) : Except PermError Unit × List TemporaryPermission :=
  if !grantSchemaValid input then (Except.error .ValidationFailed, perms)
  else if !(grantorRole == .MANAGER || grantorRole == .GROUP_HEAD) then
    (Except.error .InsufficientPermissions, perms)
  else
    match lookupUser env input.userId with
    | none => (Except.error .UserNotFound, perms)
    | some targetRole =>
      if targetRole != .DEVELOPER then (Except.error .UserNotDeveloper, perms)
      else if !(env.projects.contains input.projectId) then
        (Except.error .ProjectNotFound, perms)
      else
        match input.customExpiryDate with
        | some d =>
            if d ≤ now then (Except.error .ExpiryNotFuture, perms)
            else grantCore perms now grantorId freshId input d
        | none =>
            grantCore perms now grantorId freshId input
              (now + (input.durationDays.getD 7) * dayMs)

/-- Route pipeline for `POST /grant`: `authorize(MANAGER, GROUP_HEAD)`
middleware, then `validate(grantTemporaryPermissionSchema)`, then the
controller (`temporaryPermission.routes.ts`). -/
def grantPermissionPipeline (env : Env) (perms : List TemporaryPermission)
    (now grantorId : Nat) (grantorRole : UserRole) (freshId : Nat)
    (input : GrantInput) : Except PermError Unit × List TemporaryPermission :=
  if !(grantorRole == .MANAGER || grantorRole == .GROUP_HEAD) then
    (Except.error .InsufficientPermissions, perms)
  else if !grantSchemaValid input then (Except.error .ValidationFailed, perms)
  else grantTemporaryPermission env perms now grantorId grantorRole freshId input

/-- `revokeTemporaryPermission` controller body: role check, find by id,
set `isActive := false` unconditionally. -/
def revokeTemporaryPermission (perms : List TemporaryPermission)
    (revokerRole : UserRole) (id : Nat) :
    Except PermError Unit × List TemporaryPermission :=
  if !(revokerRole == .MANAGER || revokerRole == .GROUP_HEAD) then
    (Except.error .InsufficientPermissions, perms)
  else
    match perms.find? (fun q => q._id == id) with
    | none => (Except.error .PermissionNotFound, perms)
    | some _ =>
        (Except.ok (), updatePermById perms id fun q => { q with isActive := false })

/-- Route pipeline for `DELETE /:id`: `authorize` then `validateParams`
then the controller; the params schema only requires a non-empty id, which
the `Nat` encoding always satisfies. -/
def revokePermissionPipeline (perms : List TemporaryPermission)
    (revokerRole : UserRole) (id : Nat) :
    Except PermError Unit × List TemporaryPermission :=
  if !(revokerRole == .MANAGER || revokerRole == .GROUP_HEAD) then
    (Except.error .InsufficientPermissions, perms)
  else revokeTemporaryPermission perms revokerRole id

/-- Events recorded by the grant expiry sweep, in emission order. -/
inductive ExpireEvent where
  | notifyExpired (permId : Nat)
  | deactivate (permId : Nat)
deriving DecidableEq, Repr

/-- The sweep's match predicate `{ isActive: true, expiresAt: { $lte: now } }`. -/
def expiredPredicate (now : Nat) (q : TemporaryPermission) : Bool :=
  q.isActive && q.expiresAt ≤ now

/-- `expirePermissions` (`eodAutoSubmit.ts`): find all active expired
grants, create one expiry notification per matched grant, then one bulk
`updateMany` setting `isActive := false` on the same predicate.  The event
list records the order of side effects: all notifications first, then the
per-row flag flips of the single bulk update. -/
def expirePermissions (perms : List TemporaryPermission) (now : Nat) :
    List TemporaryPermission × List ExpireEvent :=
  let matched := perms.filter (expiredPredicate now)
  let newPerms := perms.map fun q =>
    if expiredPredicate now q then { q with isActive := false } else q
  (newPerms,
   matched.map (fun q => ExpireEvent.notifyExpired q._id) ++
   matched.map (fun q => ExpireEvent.deactivate q._id))

/-- `PermissionRequestStatus` enum. -/
inductive ReqStatus where
  | PENDING
  | APPROVED
  | REJECTED
deriving DecidableEq, Repr

/-- `PermissionRequest` document (`PermissionRequest` model). -/
structure PermissionRequest where
  _id : Nat
  requestedBy : Nat
  projectId : Nat
  requestedDurationDays : Nat
  reason : String
  status : ReqStatus
  reviewedBy : Option Nat
  reviewedAt : Option Nat
  reviewNotes : Option String
deriving DecidableEq, Repr

/-- Body accepted by `reviewPermissionRequestSchema`: a raw status string
(must be APPROVED or REJECTED) and optional notes (≤ 500 chars). -/
structure ReviewInput where
  rawStatus : String
  reviewNotes : Option String
deriving DecidableEq, Repr

/-- zod validation of `reviewPermissionRequestSchema`. -/
def reviewSchemaValid (i : ReviewInput) : Bool :=
  (i.rawStatus == "APPROVED" || i.rawStatus == "REJECTED") &&
  (match i.reviewNotes with
   | some s => decide (s.length ≤ 500)
   | none => true)

/-- Replace the request with the given `_id`. -/
def updateReqById (requests : List PermissionRequest) (id : Nat)
    (f : PermissionRequest → PermissionRequest) : List PermissionRequest :=
  requests.map fun r => if r._id == id then f r else r

/-- `reviewPermissionRequest` controller body
(`permissionRequest.controller.ts`): parse, role check, find request,
PENDING check, requester-role check; then mark reviewed, and on APPROVED
re-check for an existing active grant and create one only if none exists. -/
def reviewPermissionRequest (env : Env) (requests : List PermissionRequest)
    (perms : List TemporaryPermission) (now reviewerId : Nat)
    (reviewerRole : UserRole) (freshId requestId : Nat) (input : ReviewInput) :
    Except PermError Unit × List PermissionRequest × List TemporaryPermission :=
  if !reviewSchemaValid input then
    (Except.error .ValidationFailed, requests, perms)
  else if !(reviewerRole == .MANAGER || reviewerRole == .GROUP_HEAD) then
    (Except.error .InsufficientPermissions, requests, perms)
  else
    match requests.find? (fun r => r._id == requestId) with
    | none => (Except.error .RequestNotFound, requests, perms)
    | some request =>
      if request.status != .PENDING then
        (Except.error .AlreadyReviewed, requests, perms)
      else
        match lookupUser env request.requestedBy with
        | none => (Except.error .RequesterNotDeveloper, requests, perms)
        | some requesterRole =>
          if requesterRole != .DEVELOPER then
            (Except.error .RequesterNotDeveloper, requests, perms)
          else
            let decided : ReqStatus :=
              if input.rawStatus == "APPROVED" then .APPROVED else .REJECTED
            let requests' := updateReqById requests requestId fun r =>
              { r with status := decided, reviewedBy := some reviewerId,
                       reviewedAt := some now,
                       reviewNotes :=
                         match input.reviewNotes with
                         | some s => some s
                         | none => r.reviewNotes }
            if decided == .APPROVED then
              let expiresAt := now + request.requestedDurationDays * dayMs
              match findActivePermission perms request.requestedBy
                      request.projectId now with
              | some _ => (Except.ok (), requests', perms)
              | none =>
                  (Except.ok (), requests',
                   perms ++ [{ _id := freshId, userId := request.requestedBy,
                               projectId := request.projectId,
                               grantedBy := reviewerId, expiresAt := expiresAt,
                               isActive := true,
                               reason := some ("Approved request: " ++ request.reason) }])
            else (Except.ok (), requests', perms)

/-- Route pipeline for `PUT /:id/review`: `authorize(MANAGER, GROUP_HEAD)`
then `validateParams`/`validate`, then the controller. -/
def reviewPermissionPipeline (env : Env) (requests : List PermissionRequest)
    (perms : List TemporaryPermission) (now reviewerId : Nat)
    (reviewerRole : UserRole) (freshId requestId : Nat) (input : ReviewInput) :
    Except PermError Unit × List PermissionRequest × List TemporaryPermission :=
  if !(reviewerRole == .MANAGER || reviewerRole == .GROUP_HEAD) then
    (Except.error .InsufficientPermissions, requests, perms)
  else if !reviewSchemaValid input then
    (Except.error .ValidationFailed, requests, perms)
  else reviewPermissionRequest env requests perms now reviewerId reviewerRole
        freshId requestId input

/-- Body of `createPermissionRequestSchema`: projectId, duration in
`[1,90]`, reason string of length in `[10,1000]`. -/
structure CreateRequestInput where
  projectId : Nat
  requestedDurationDays : Nat
  reason : String
deriving DecidableEq, Repr

/-- zod validation of `createPermissionRequestSchema`. -/
def createRequestSchemaValid (i : CreateRequestInput) : Bool :=
  decide (1 ≤ i.requestedDurationDays) && decide (i.requestedDurationDays ≤ 90) &&
  decide (10 ≤ i.reason.length) && decide (i.reason.length ≤ 1000)

/-- `createPermissionRequest` controller body: parse, developer-only role
check, project existence, `AlreadyPending` check, `AlreadyGranted` check,
then insert a PENDING request. -/
def createPermissionRequest (env : Env) (requests : List PermissionRequest)
    (perms : List TemporaryPermission) (now requesterId : Nat)
    (requesterRole : UserRole) (freshId : Nat) (input : CreateRequestInput) :
    Except PermError Unit × List PermissionRequest :=
  if !createRequestSchemaValid input then
    (Except.error .ValidationFailed, requests)
  else if requesterRole != .DEVELOPER then
    (Except.error .InsufficientPermissions, requests)
  else if !(env.projects.contains input.projectId) then
    (Except.error .ProjectNotFound, requests)
  else if (requests.find? fun r =>
      r.requestedBy == requesterId && r.projectId == input.projectId &&
      r.status == ReqStatus.PENDING).isSome then
    (Except.error .AlreadyPending, requests)
  else if (findActivePermission perms requesterId input.projectId now).isSome then
    (Except.error .AlreadyGranted, requests)
  else
    (Except.ok (),
     requests ++ [{ _id := freshId, requestedBy := requesterId,
                    projectId := input.projectId,
                    requestedDurationDays := input.requestedDurationDays,
                    reason := input.reason, status := .PENDING,
                    reviewedBy := none, reviewedAt := none,
                    reviewNotes := none }])

/-- Route pipeline for `POST /` on permission requests
(`part_006`): `validate(createPermissionRequestSchema)` runs as middleware
and there is NO authorize middleware — the developer-only check lives
inside the controller, after the parse. -/
def createRequestPipeline (env : Env) (requests : List PermissionRequest)
    (perms : List TemporaryPermission) (now requesterId : Nat)
    (requesterRole : UserRole) (freshId : Nat) (input : CreateRequestInput) :
    Except PermError Unit × List PermissionRequest :=
  if !createRequestSchemaValid input then
    (Except.error .ValidationFailed, requests)
  else createPermissionRequest env requests perms now requesterId requesterRole
        freshId input

/-- Denial reasons of the access-decision evaluator, keyed by the reason
strings of `canAssignTasks`/`canAssignTaskToUser` (`part_013`). -/
inductive DenyReason where
  | NoPermission
  | InvalidTarget
  | InsufficientRole
deriving DecidableEq, Repr

/-- `canAssignTasks` (`part_013`): MANAGER/GROUP_HEAD/TEAM_LEAD always
pass; a DEVELOPER passes iff an active non-expired grant exists for
(userId, targetProjectId).  Pure: the source only performs a `findOne`. -/
def canAssignTasks (perms : List TemporaryPermission) (userId : Nat)
    (userRole : UserRole) (targetProjectId now : Nat) :
    Bool × Option DenyReason :=
  if userRole == .MANAGER || userRole == .GROUP_HEAD || userRole == .TEAM_LEAD then
    (true, none)
  else if userRole == .DEVELOPER then
    match findActivePermission perms userId targetProjectId now with
    | some _ => (true, none)
    | none => (false, some .NoPermission)
  else (false, some .InsufficientRole)

/-- `canAssignTaskToUser` (`part_013`): the target must be a DEVELOPER,
then defer to `canAssignTasks`. -/
def canAssignTaskToUser (perms : List TemporaryPermission) (userId : Nat)
    (userRole : UserRole) (targetProjectId now : Nat)
    (targetUserRole : UserRole) : Bool × Option DenyReason :=
  if targetUserRole != .DEVELOPER then (false, some .InvalidTarget)
  else
    let baseCheck := canAssignTasks perms userId userRole targetProjectId now
    if !baseCheck.1 then baseCheck
    else (true, none)

/-- `EODReport` document (`EODReport.model.ts`): `reportDate` is the
local-midnight-normalized day. -/
structure EODReport where
  _id : Nat
  userId : Nat
  reportDate : Nat
  status : EODStatus
  isFinal : Bool
  submittedAt : Option Nat
  scheduledSubmitAt : Option Nat
  tasksCompleted : Nat
  tasksInProgress : Nat
  blockers : Nat
  blockersText : Option String
  planForTomorrow : Option String
  notes : Option String
  blockedTasks : List Nat
deriving DecidableEq, Repr

/-- `EODTask` child document (`WeeklySummary.model.ts`). -/
structure EODTask where
  _id : Nat
  eodReportId : Nat
  taskId : Nat
  status : EODTaskStatus
  progress : Nat
deriving DecidableEq, Repr

/-- One entry of `eodTaskSchema`: `{ taskId, status, progress? }` with
`progress` an optional int in `[0,100]`. -/
structure EODTaskInput where
  taskId : Nat
  status : EODTaskStatus
  progress : Option Nat
deriving DecidableEq, Repr

/-- `eodTaskSchema` bound on `progress` (`z.number().int().min(0).max(100)`;
the `Nat` encoding makes `min(0)` implicit). -/
def taskEntryValid (t : EODTaskInput) : Bool :=
  match t.progress with
  | some p => decide (p ≤ 100)
  | none => true

/-- The shared shape of a draft/submit request body after zod parsing.
Fields are `Option` to keep JSON presence observable; `createEODReportSchema`
applies `.default([])` to the three list fields, modelled by `getD []` at
each use site. -/
structure ReportInput where
  reportDate : Option Nat
  scheduledSubmitAt : Option Nat
  submitNow : Bool
  completedTasks : Option (List EODTaskInput)
  inProgressTasks : Option (List EODTaskInput)
  blockedTasks : Option (List Nat)
  blockersText : Option String
  planForTomorrow : Option String
  notes : Option String
  tasksCompleted : Option Nat
  tasksInProgress : Option Nat
  blockers : Option Nat
deriving DecidableEq, Repr

/-- String-length bounds shared by the three report schemas. -/
def reportStringsValid (i : ReportInput) : Bool :=
  (match i.blockersText with | some s => decide (s.length ≤ 500) | none => true) &&
  (match i.planForTomorrow with | some s => decide (s.length ≤ 500) | none => true) &&
  (match i.notes with | some s => decide (s.length ≤ 1000) | none => true)

/-- zod validation of `createEODReportSchema` (and the compatible
`updateEODReportSchema` parse the controller performs on the same body):
per-entry progress bounds, plus the `.refine` requiring every IN_PROGRESS
entry of `inProgressTasks` to carry a progress value. -/
def createSchemaValid (i : ReportInput) : Bool :=
  ((i.completedTasks.getD []).all taskEntryValid) &&
  ((i.inProgressTasks.getD []).all taskEntryValid) &&
  ((i.inProgressTasks.getD []).all fun t =>
    if t.status == .IN_PROGRESS then t.progress.isSome else true) &&
  reportStringsValid i

/-- zod validation of `submitEODReportSchema`: per-entry progress bounds
only (no `.refine`). -/
def submitSchemaValid (i : ReportInput) : Bool :=
  ((i.completedTasks.getD []).all taskEntryValid) &&
  ((i.inProgressTasks.getD []).all taskEntryValid) &&
  reportStringsValid i

/-- Error kinds surfaced by the report controllers. -/
inductive ReportError where
  | NotDeveloper
  | ValidationFailed
  | WrongDate
  | ReportFinal
  | TaskNotAccessible
  | ScheduledTimeMissing
  | ScheduledTimeNotFuture
  | ScheduledAfterEndOfDay
deriving DecidableEq, Repr

/-- The report-side persistent state: the `EODReport` collection and its
`EODTask` children. -/
structure ReportState where
  reports : List EODReport
  tasks : List EODTask
deriving DecidableEq, Repr

/-- `find?` by primary key. -/
def findReportById (reports : List EODReport) (id : Nat) : Option EODReport :=
  reports.find? fun r => r._id == id

/-- Write a document back by primary key (`report.save()`). -/
def updateReportById (reports : List EODReport) (id : Nat)
    (f : EODReport → EODReport) : List EODReport :=
  reports.map fun r => if r._id == id then f r else r

/-- `EODReport.findOne({ userId, reportDate })` used by both controllers. -/
def findReportFor (reports : List EODReport) (userId reportDate : Nat) :
    Option EODReport :=
  reports.find? fun r => r.userId == userId && r.reportDate == reportDate

/-- The loop pushing completed entries:
`status := COMPLETED, progress := 100`; fresh sequential `_id`s. -/
def mkCompletedRows (base reportId : Nat) : List EODTaskInput → List EODTask
  | [] => []
  | t :: rest =>
      { _id := base, eodReportId := reportId, taskId := t.taskId,
        status := EODTaskStatus.COMPLETED, progress := 100 } ::
        mkCompletedRows (base + 1) reportId rest

/-- The loop pushing in-progress entries:
`status := IN_PROGRESS, progress := task.progress || 0`. -/
def mkInProgressRows (base reportId : Nat) : List EODTaskInput → List EODTask
  | [] => []
  | t :: rest =>
      { _id := base, eodReportId := reportId, taskId := t.taskId,
        status := EODTaskStatus.IN_PROGRESS, progress := t.progress.getD 0 } ::
        mkInProgressRows (base + 1) reportId rest

/-- The fresh `EODTask` rows created by a delete-then-insert pass
(completed entries first, then in-progress entries, as in the source). -/
def buildEodTaskRows (freshBase reportId : Nat)
    (completed inProgress : List EODTaskInput) : List EODTask :=
  mkCompletedRows freshBase reportId completed ++
    mkInProgressRows (freshBase + completed.length) reportId inProgress

/-- `EODTask.deleteMany({ eodReportId }) ; EODTask.insertMany(rows)`. -/
def replaceEodTasks (tasks : List EODTask) (reportId freshBase : Nat)
    (completed inProgress : List EODTaskInput) : List EODTask :=
  tasks.filter (fun t => t.eodReportId != reportId) ++
    buildEodTaskRows freshBase reportId completed inProgress

/-- Task ids referenced by the request (`allTaskIds` in both controllers). -/
def referencedTaskIds (i : ReportInput) : List Nat :=
  (i.completedTasks.getD []).map (·.taskId) ++
    (i.inProgressTasks.getD []).map (·.taskId)

/-- The in-place update of an existing draft performed by
`createOrUpdateEODReport`: text fields when provided, `blockedTasks`
always (the create-schema default), counts from the task lists when
either list is present in the raw body, else the legacy count fields. -/
def draftUpdatedReport (existing : EODReport) (input : ReportInput) :
    EODReport :=
  let withText :=
    { existing with
      blockersText :=
        match input.blockersText with
        | some s' => some s'
        | none => existing.blockersText,
      blockedTasks := input.blockedTasks.getD [],
      planForTomorrow :=
        match input.planForTomorrow with
        | some s' => some s'
        | none => existing.planForTomorrow,
      notes :=
        match input.notes with
        | some s' => some s'
        | none => existing.notes }
  if input.completedTasks.isSome || input.inProgressTasks.isSome then
    { withText with
      tasksCompleted := (input.completedTasks.getD []).length,
      tasksInProgress := (input.inProgressTasks.getD []).length,
      blockers := if strTruthy input.blockersText then 1 else 0 }
  else
    { withText with
      tasksCompleted := input.tasksCompleted.getD withText.tasksCompleted,
      tasksInProgress := input.tasksInProgress.getD withText.tasksInProgress,
      blockers := input.blockers.getD withText.blockers }

/-- The new DRAFT report built by `createOrUpdateEODReport` when none
exists yet (JS `||` chains on the counts: an empty task list falls back to
the legacy count fields). -/
def newDraftReport (freshId userId reportDate : Nat) (input : ReportInput) :
    EODReport :=
  { _id := freshId, userId := userId, reportDate := reportDate,
    status := .DRAFT, isFinal := false, submittedAt := none,
    scheduledSubmitAt := none,
    tasksCompleted :=
      if (input.completedTasks.getD []).length == 0 then
        input.tasksCompleted.getD 0
      else (input.completedTasks.getD []).length,
    tasksInProgress :=
      if (input.inProgressTasks.getD []).length == 0 then
        input.tasksInProgress.getD 0
      else (input.inProgressTasks.getD []).length,
    blockers :=
      if strTruthy input.blockersText then 1 else input.blockers.getD 0,
    blockersText := input.blockersText,
    planForTomorrow := input.planForTomorrow,
    notes := input.notes,
    blockedTasks := input.blockedTasks.getD [] }

/-- `createOrUpdateEODReport` (`eodReport.controller.ts`): developer-only;
parse; date must be today; accessible-task validation; upsert keyed on
(userId, today) rejecting final reports; then an unconditional
delete-then-insert of the `EODTask` rows (the create-schema defaults make
the task-association branch always taken). -/
def createOrUpdateEODReport (s : ReportState) (userRole : UserRole)
    (userId : Nat) (accessible : List Nat)
    (today freshId freshBase : Nat) (input : ReportInput) :
    Except ReportError Unit × ReportState :=
  if userRole != .DEVELOPER then (Except.error .NotDeveloper, s)
  else if !createSchemaValid input then (Except.error .ValidationFailed, s)
  else if input.reportDate.getD today != today then (Except.error .WrongDate, s)
  else if ((referencedTaskIds input).filter
      fun tid => !(accessible.contains tid)) != [] then
    (Except.error .TaskNotAccessible, s)
  else
    match findReportFor s.reports userId (input.reportDate.getD today) with
    | some existing =>
      if existing.isFinal then (Except.error .ReportFinal, s)
      else
        (Except.ok (),
         { reports := updateReportById s.reports existing._id fun _ =>
             draftUpdatedReport existing input,
           tasks := replaceEodTasks s.tasks existing._id freshBase
                      (input.completedTasks.getD [])
                      (input.inProgressTasks.getD []) })
    | none =>
      (Except.ok (),
       { reports := s.reports ++
           [newDraftReport freshId userId (input.reportDate.getD today) input],
         tasks := replaceEodTasks s.tasks freshId freshBase
                    (input.completedTasks.getD [])
                    (input.inProgressTasks.getD []) })

/-- The implicit draft created by `submitEODReport` when no report exists
for today. -/
def freshDraft (freshId userId reportDate : Nat) : EODReport :=
  { _id := freshId, userId := userId, reportDate := reportDate,
    status := .DRAFT, isFinal := false, submittedAt := none,
    scheduledSubmitAt := none, tasksCompleted := 0, tasksInProgress := 0,
    blockers := 0, blockersText := none, planForTomorrow := none,
    notes := none, blockedTasks := [] }

/-- The in-memory report after `submitEODReport`'s optional task-list
section updated counts and text fields (not yet saved). -/
def pendingReport (report : EODReport) (input : ReportInput) : EODReport :=
  if input.completedTasks.isSome || input.inProgressTasks.isSome then
    { report with
      tasksCompleted := (input.completedTasks.getD []).length,
      tasksInProgress := (input.inProgressTasks.getD []).length,
      blockersText :=
        match input.blockersText with
        | some s' => some s'
        | none => report.blockersText,
      blockedTasks :=
        match input.blockedTasks with
        | some l => l
        | none => report.blockedTasks,
      planForTomorrow :=
        match input.planForTomorrow with
        | some s' => some s'
        | none => report.planForTomorrow,
      notes :=
        match input.notes with
        | some s' => some s'
        | none => report.notes }
  else report

/-- Body of `submitEODReport` from the final-report check on (source lines
operating on the found-or-created `report`): final check; optional task
replacement (persisted immediately); then immediate submission, or the
scheduled-submission validation chain.  Error paths keep `reports1` (the
table incl. any implicitly created draft) and the already-replaced task
rows, discarding the unsaved in-memory report updates. -/
def submitCore (reports1 : List EODReport) (tasks : List EODTask)
    (report : EODReport) (accessible : List Nat)
    (now endOfToday freshBase : Nat) (input : ReportInput) :
    Except ReportError Unit × ReportState :=
  if report.isFinal then
    (Except.error .ReportFinal, ⟨reports1, tasks⟩)
  else if (input.completedTasks.isSome || input.inProgressTasks.isSome) &&
      ((referencedTaskIds input).filter
        fun tid => !(accessible.contains tid)) != [] then
    (Except.error .TaskNotAccessible, ⟨reports1, tasks⟩)
  else
    let tasks1 :=
      if input.completedTasks.isSome || input.inProgressTasks.isSome then
        replaceEodTasks tasks report._id freshBase
          (input.completedTasks.getD []) (input.inProgressTasks.getD [])
      else tasks
    if input.submitNow then
      (Except.ok (),
       { reports := updateReportById reports1 report._id fun _ =>
           { pendingReport report input with
             status := .SUBMITTED, submittedAt := some now,
             scheduledSubmitAt := none },
         tasks := tasks1 })
    else
      match input.scheduledSubmitAt with
      | none =>
          (Except.error .ScheduledTimeMissing, ⟨reports1, tasks1⟩)
      | some t =>
        if t ≤ now then
          (Except.error .ScheduledTimeNotFuture, ⟨reports1, tasks1⟩)
        else if endOfToday < t then
          (Except.error .ScheduledAfterEndOfDay, ⟨reports1, tasks1⟩)
        else
          (Except.ok (),
           { reports := updateReportById reports1 report._id fun _ =>
               { pendingReport report input with scheduledSubmitAt := some t },
             tasks := tasks1 })

/-- `submitEODReport` (`eodReport.controller.ts`): developer-only; parse;
date must be today; implicit DRAFT creation saved immediately when no
report exists for (userId, today); then `submitCore` on the found or
created report. -/
def submitEODReport (s : ReportState) (userRole : UserRole) (userId : Nat)
    (accessible : List Nat) (now today endOfToday freshId freshBase : Nat)
    (input : ReportInput) : Except ReportError Unit × ReportState :=
  if userRole != .DEVELOPER then (Except.error .NotDeveloper, s)
  else if !submitSchemaValid input then (Except.error .ValidationFailed, s)
  else if input.reportDate.getD today != today then (Except.error .WrongDate, s)
  else
    match findReportFor s.reports userId (input.reportDate.getD today) with
    | some existing =>
        submitCore s.reports s.tasks existing accessible now endOfToday
          freshBase input
    | none =>
        submitCore
          (s.reports ++ [freshDraft freshId userId (input.reportDate.getD today)])
          s.tasks (freshDraft freshId userId (input.reportDate.getD today))
          accessible now endOfToday freshBase input

/-- Row predicate of `processScheduledSubmissions`:
`{ scheduledSubmitAt: {$lte: now}, status: DRAFT, isFinal: false }`. -/
def scheduledDuePredicate (now : Nat) (r : EODReport) : Bool :=
  (match r.scheduledSubmitAt with
   | some t => t ≤ now
   | none => false) && r.status == .DRAFT && r.isFinal == false

/-- `processScheduledSubmissions` (`eodAutoSubmit.ts`): promote due
scheduled drafts to SUBMITTED, clearing the scheduled time. -/
def processScheduledSubmissions (reports : List EODReport) (now : Nat) :
    List EODReport :=
  reports.map fun r =>
    if scheduledDuePredicate now r then
      { r with status := .SUBMITTED, submittedAt := some now,
               scheduledSubmitAt := none }
    else r

/-- Row predicate of `autoSubmitDraftsAtEndOfDay`: today's DRAFT,
non-final reports. -/
def draftTodayPredicate (todayStart tomorrowStart : Nat) (r : EODReport) : Bool :=
  todayStart ≤ r.reportDate && r.reportDate < tomorrowStart &&
    r.status == .DRAFT && r.isFinal == false

/-- `autoSubmitDraftsAtEndOfDay` (`eodAutoSubmit.ts`). -/
def autoSubmitDraftsAtEndOfDay (reports : List EODReport)
    (todayStart tomorrowStart now : Nat) : List EODReport :=
  reports.map fun r =>
    if draftTodayPredicate todayStart tomorrowStart r then
      { r with status := .SUBMITTED, submittedAt := some now,
               scheduledSubmitAt := none }
    else r

/-- Row predicate of `finalizeReportsAtMidnight`: yesterday's SUBMITTED,
non-final reports. -/
def submittedYesterdayPredicate (yesterdayStart todayStart : Nat)
    (r : EODReport) : Bool :=
  yesterdayStart ≤ r.reportDate && r.reportDate < todayStart &&
    r.status == .SUBMITTED && r.isFinal == false

/-- `finalizeReportsAtMidnight` (`eodAutoSubmit.ts`). -/
def finalizeReportsAtMidnight (reports : List EODReport)
    (yesterdayStart todayStart : Nat) : List EODReport :=
  reports.map fun r =>
    if submittedYesterdayPredicate yesterdayStart todayStart r then
      { r with isFinal := true }
    else r

/-- The five operations that can touch the `EODReport` collection
(the two controllers and the three sweeps). -/
inductive ReportOp where
  | draft (userRole : UserRole) (userId : Nat) (accessible : List Nat)
      (today freshId freshBase : Nat) (input : ReportInput)
  | submit (userRole : UserRole) (userId : Nat) (accessible : List Nat)
      (now today endOfToday freshId freshBase : Nat) (input : ReportInput)
  | sweepScheduled (now : Nat)
  | sweepEndOfDay (todayStart tomorrowStart now : Nat)
  | sweepFinalize (yesterdayStart todayStart : Nat)

/-- Apply one report operation, keeping the resulting state (errors leave
whatever the operation had already persisted). -/
def reportStep (s : ReportState) : ReportOp → ReportState
  | .draft role uid acc today fid fb input =>
      (createOrUpdateEODReport s role uid acc today fid fb input).2
  | .submit role uid acc now today eod fid fb input =>
      (submitEODReport s role uid acc now today eod fid fb input).2
  | .sweepScheduled now =>
      { s with reports := processScheduledSubmissions s.reports now }
  | .sweepEndOfDay ts tm now =>
      { s with reports := autoSubmitDraftsAtEndOfDay s.reports ts tm now }
  | .sweepFinalize ys ts =>
      { s with reports := finalizeReportsAtMidnight s.reports ys ts }

/-- The report `_id` a report operation may mint (`generateId()`). -/
def opFreshReportIds : ReportOp → List Nat
  | .draft _ _ _ _ fid _ _ => [fid]
  | .submit _ _ _ _ _ _ fid _ _ => [fid]
  | _ => []

/-- Whether the event trace ever flips a grant's flag in the position
immediately after that grant's notification. -/
def flipImmediatelyAfterNotify : List ExpireEvent → Nat → Bool
  | e1 :: rest, id =>
    (match rest with
     | e2 :: _ =>
         e1 == ExpireEvent.notifyExpired id && e2 == ExpireEvent.deactivate id
     | [] => false) || flipImmediatelyAfterNotify rest id
  | [], _ => false

/-- The per-row invariant of `EODTask`: COMPLETED rows carry progress 100,
IN_PROGRESS rows carry progress in `[0,100]` (`Nat` gives the lower bound). -/
def taskRowOk (t : EODTask) : Prop :=
  (t.status = .COMPLETED → t.progress = 100) ∧
  (t.status = .IN_PROGRESS → t.progress ≤ 100)

/-- The permission-side persistent state: the request and grant tables. -/
structure PermState where
  requests : List PermissionRequest
  perms : List TemporaryPermission
deriving Repr

/-- The operations that can touch the `TemporaryPermission` table: grant,
revoke, review (approve/reject a request) and the expiry sweep. -/
inductive PermOp where
  | opGrant (grantorId : Nat) (grantorRole : UserRole) (freshId : Nat)
      (input : GrantInput)
  | opRevoke (revokerRole : UserRole) (id : Nat)
  | opReview (reviewerId : Nat) (reviewerRole : UserRole)
      (freshId requestId : Nat) (input : ReviewInput)
  | opExpire

/-- Apply one permission operation at wall-clock time `t`, keeping the
resulting state (error results leave the state unchanged, as in the
source, whose checks all precede its writes). -/
def permStep (env : Env) (s : PermState) (t : Nat) : PermOp → PermState
  | .opGrant gid grole fid input =>
      { s with perms := (grantPermissionPipeline env s.perms t gid grole fid input).2 }
  | .opRevoke rrole id =>
      { s with perms := (revokePermissionPipeline s.perms rrole id).2 }
  | .opReview rid rrole fid reqId input =>
      let out := reviewPermissionPipeline env s.requests s.perms t rid rrole fid
        reqId input
      { requests := out.2.1, perms := out.2.2 }
  | .opExpire => { s with perms := (expirePermissions s.perms t).1 }

/-- The permission `_id` an operation may mint (`generateId()`). -/
def opPermFreshIds : PermOp → List Nat
  | .opGrant _ _ fid _ => [fid]
  | .opReview _ _ fid _ _ => [fid]
  | _ => []

/-- All permission ids a schedule of operations may mint. -/
def schedFreshIds : List (PermOp × Nat) → List Nat
  | [] => []
  | (op, _) :: rest => opPermFreshIds op ++ schedFreshIds rest

/-- Run a schedule of timestamped permission operations. -/
def runPerm (env : Env) (s : PermState) : List (PermOp × Nat) → PermState
  | [] => s
  | (op, t) :: rest => runPerm env (permStep env s t op) rest

/-- The operation times are nondecreasing, starting no earlier than `t0`
and ending no later than `tEnd`. -/
def timesChain (t0 : Nat) : List (PermOp × Nat) → Nat → Prop
  | [], tEnd => t0 ≤ tEnd
  | (_, t) :: rest, tEnd => t0 ≤ t ∧ timesChain t rest tEnd

/-- The `_id` column of the grant table. -/
def permIds (perms : List TemporaryPermission) : List Nat :=
  perms.map (·._id)

/-- Number of rows matching `{userId: u, projectId: p, isActive: true,
expiresAt: {$gt: t}}`. -/
def activeCount (perms : List TemporaryPermission) (u p t : Nat) : Nat :=
  (perms.filter (activePredicate u p t)).length

/-- The grant-uniqueness invariant: at most one row per (userId,
projectId) matching `{isActive: true, expiresAt: {$gt: t}}`. -/
def GrantInv (perms : List TemporaryPermission) (t : Nat) : Prop :=
  ∀ u p, activeCount perms u p t ≤ 1

section ListLemmas

variable {α : Type}

/-- `find?` commutes with a `map` whose function preserves the predicate
on the members of the list. -/
theorem find?_map_pointwise (l : List α) (g : α → α) (P : α → Bool)
    (h : ∀ x ∈ l, P (g x) = P x) : (l.map g).find? P = (l.find? P).map g := by
  induction l with
  | nil => rfl
  | cons a tl ih =>
    have ha := h a (List.mem_cons_self a tl)
    by_cases hP : P a = true
    · rw [List.map_cons, List.find?_cons_of_pos _ (ha.trans hP),
        List.find?_cons_of_pos _ hP, Option.map_some']
    · rw [List.map_cons,
        List.find?_cons_of_neg _ (by rw [ha]; exact hP),
        List.find?_cons_of_neg _ hP]
      exact ih fun x hx => h x (List.mem_cons_of_mem a hx)

/-- With `Nodup` keys, `find?` on the key of a member returns exactly that
member. -/
theorem find?_key_of_nodup (key : α → Nat) (l : List α) (r : α)
    (hnd : (l.map key).Nodup) (hr : r ∈ l) :
    l.find? (fun x => key x == key r) = some r := by
  induction l with
  | nil => cases hr
  | cons a tl ih =>
    rw [List.map_cons, List.nodup_cons] at hnd
    rcases List.mem_cons.mp hr with rfl | hr'
    · exact List.find?_cons_of_pos _ (by simp)
    · have hne : (key a == key r) = false := by
        apply beq_false_of_ne
        intro hkeq
        exact hnd.1 (hkeq ▸ List.mem_map_of_mem key hr')
      rw [List.find?_cons_of_neg _ (by simp [hne])]
      exact ih hnd.2 hr'

/-- `find?` over an append, found on the left. -/
theorem find?_append_left (P : α → Bool) (l₁ l₂ : List α) (a : α)
    (h : l₁.find? P = some a) : (l₁ ++ l₂).find? P = some a := by
  induction l₁ with
  | nil => simp [List.find?] at h
  | cons b tl ih =>
    by_cases hP : P b = true
    · rw [List.find?_cons_of_pos _ hP] at h
      rw [List.cons_append, List.find?_cons_of_pos _ hP]
      exact h
    · rw [List.find?_cons_of_neg _ hP] at h
      rw [List.cons_append, List.find?_cons_of_neg _ hP]
      exact ih h

/-- `find?` over an append, nothing on the left. -/
theorem find?_append_of_none (P : α → Bool) (l₁ l₂ : List α)
    (h : l₁.find? P = none) : (l₁ ++ l₂).find? P = l₂.find? P := by
  induction l₁ with
  | nil => rfl
  | cons b tl ih =>
    by_cases hP : P b = true
    · rw [List.find?_cons_of_pos _ hP] at h; cases h
    · rw [List.find?_cons_of_neg _ hP] at h
      rw [List.cons_append, List.find?_cons_of_neg _ hP]
      exact ih h

/-- Filtering after a pointwise-predicate-preserving map keeps the count. -/
theorem length_filter_map_eq (l : List α) (g : α → α) (P : α → Bool)
    (h : ∀ x ∈ l, P (g x) = P x) :
    ((l.map g).filter P).length = (l.filter P).length := by
  induction l with
  | nil => rfl
  | cons a tl ih =>
    have ha := h a (List.mem_cons_self a tl)
    have ih' := ih fun x hx => h x (List.mem_cons_of_mem a hx)
    by_cases hP : P a = true
    · rw [List.map_cons, List.filter_cons_of_pos (ha.trans hP),
        List.filter_cons_of_pos hP]
      simp [ih']
    · rw [List.map_cons, List.filter_cons_of_neg (by rw [ha]; simpa using hP),
        List.filter_cons_of_neg (by simpa using hP)]
      exact ih'

/-- Filtering after a map that only ever turns the predicate off cannot
increase the count. -/
theorem length_filter_map_le (l : List α) (g : α → α) (P : α → Bool)
    (h : ∀ x ∈ l, P (g x) = true → P x = true) :
    ((l.map g).filter P).length ≤ (l.filter P).length := by
  induction l with
  | nil => exact Nat.le_refl _
  | cons a tl ih =>
    have ih' := ih fun x hx => h x (List.mem_cons_of_mem a hx)
    by_cases hga : P (g a) = true
    · have hPa := h a (List.mem_cons_self a tl) hga
      rw [List.map_cons, List.filter_cons_of_pos hga, List.filter_cons_of_pos hPa]
      simpa using ih'
    · rw [List.map_cons, List.filter_cons_of_neg (by simpa using hga)]
      by_cases hPa : P a = true
      · rw [List.filter_cons_of_pos hPa]
        exact Nat.le_succ_of_le ih'
      · rw [List.filter_cons_of_neg (by simpa using hPa)]
        exact ih'

/-- A pointwise-weaker predicate filters no more elements. -/
theorem length_filter_le_filter (l : List α) (P Q : α → Bool)
    (h : ∀ x ∈ l, Q x = true → P x = true) :
    (l.filter Q).length ≤ (l.filter P).length := by
  induction l with
  | nil => exact Nat.le_refl _
  | cons a tl ih =>
    have ih' := ih fun x hx => h x (List.mem_cons_of_mem a hx)
    by_cases hQ : Q a = true
    · rw [List.filter_cons_of_pos hQ,
        List.filter_cons_of_pos (h a (List.mem_cons_self a tl) hQ)]
      simpa using ih'
    · rw [List.filter_cons_of_neg (by simpa using hQ)]
      by_cases hP : P a = true
      · rw [List.filter_cons_of_pos hP]
        exact Nat.le_succ_of_le ih'
      · rw [List.filter_cons_of_neg (by simpa using hP)]
        exact ih'

end ListLemmas

/-- A conditional one-pass rewrite whose result never matches the
predicate again is idempotent and leaves nothing matching. -/
theorem sweep_map_idem {α : Type} (P : α → Bool) (f : α → α)
    (hf : ∀ x, P (f x) = false) (l : List α) :
    ((l.map fun x => if P x then f x else x).map fun x => if P x then f x else x)
      = (l.map fun x => if P x then f x else x) ∧
    (l.map fun x => if P x then f x else x).filter P = [] := by
  induction l with
  | nil => exact ⟨rfl, rfl⟩
  | cons a tl ih =>
    have hcond : P (if P a then f a else a) = false := by
      by_cases hP : P a = true
      · rw [if_pos hP]; exact hf a
      · rw [if_neg hP]; simpa using hP
    refine ⟨?_, ?_⟩
    · simp only [List.map_cons]
      rw [ih.1, if_neg (by simp [hcond])]
    · simp only [List.map_cons]
      rw [List.filter_cons_of_neg (by simp [hcond])]
      exact ih.2

/-- C5: each of the three report sweeps is idempotent — immediately
re-running it with the same clock reading selects no rows (its query
predicate matches nothing in the output) and changes no report. -/
theorem c5_sweeps_idempotent
    (reports : List EODReport)
    (now todayStart tomorrowStart yesterdayStart : Nat) :
    (processScheduledSubmissions (processScheduledSubmissions reports now) now =
        processScheduledSubmissions reports now ∧
      (processScheduledSubmissions reports now).filter (scheduledDuePredicate now) = []) ∧
    (autoSubmitDraftsAtEndOfDay
        (autoSubmitDraftsAtEndOfDay reports todayStart tomorrowStart now)
        todayStart tomorrowStart now =
        autoSubmitDraftsAtEndOfDay reports todayStart tomorrowStart now ∧
      (autoSubmitDraftsAtEndOfDay reports todayStart tomorrowStart now).filter
        (draftTodayPredicate todayStart tomorrowStart) = []) ∧
    (finalizeReportsAtMidnight
        (finalizeReportsAtMidnight reports yesterdayStart todayStart)
        yesterdayStart todayStart =
        finalizeReportsAtMidnight reports yesterdayStart todayStart ∧
      (finalizeReportsAtMidnight reports yesterdayStart todayStart).filter
        (submittedYesterdayPredicate yesterdayStart todayStart) = []) := by
  refine ⟨?_, ?_, ?_⟩
  · exact sweep_map_idem (scheduledDuePredicate now)
      (fun r => { r with status := .SUBMITTED, submittedAt := some now,
                         scheduledSubmitAt := none })
      (fun r => by simp [scheduledDuePredicate]) reports
  · exact sweep_map_idem (draftTodayPredicate todayStart tomorrowStart)
      (fun r => { r with status := .SUBMITTED, submittedAt := some now,
                         scheduledSubmitAt := none })
      (fun r => by simp [draftTodayPredicate]) reports
  · exact sweep_map_idem (submittedYesterdayPredicate yesterdayStart todayStart)
      (fun r => { r with isFinal := true })
      (fun r => by simp [submittedYesterdayPredicate]) reports

/-- C3: `canAssignTaskToUser` allows exactly when the target is a
DEVELOPER and the actor is MANAGER/GROUP_HEAD/TEAM_LEAD or a DEVELOPER
holding an active, non-expired grant for the target project; a non-DEVELOPER
target is denied with `InvalidTarget`, a grant-less developer actor with
`NoPermission`.  (The embedding is a pure function: the source only
performs a `findOne` read.) -/
theorem c3_canAssignTaskToUser_characterization
    (perms : List TemporaryPermission) (userId : Nat) (userRole : UserRole)
    (targetProjectId now : Nat) (targetUserRole : UserRole) :
    ((canAssignTaskToUser perms userId userRole targetProjectId now
        targetUserRole).1 = true ↔
      (targetUserRole = .DEVELOPER ∧
        (userRole = .MANAGER ∨ userRole = .GROUP_HEAD ∨ userRole = .TEAM_LEAD ∨
          (userRole = .DEVELOPER ∧
            ∃ q ∈ perms, activePredicate userId targetProjectId now q = true)))) ∧
    (targetUserRole ≠ .DEVELOPER →
      canAssignTaskToUser perms userId userRole targetProjectId now
        targetUserRole = (false, some .InvalidTarget)) ∧
    (targetUserRole = .DEVELOPER → userRole = .DEVELOPER →
      findActivePermission perms userId targetProjectId now = none →
      canAssignTaskToUser perms userId userRole targetProjectId now
        targetUserRole = (false, some .NoPermission)) := by
  have hfind : (findActivePermission perms userId targetProjectId now).isSome = true ↔
      ∃ q ∈ perms, activePredicate userId targetProjectId now q = true := by
    simp [findActivePermission, List.find?_isSome]
  refine ⟨?_, ?_, ?_⟩
  · cases targetUserRole <;>
      cases userRole <;>
        simp [canAssignTaskToUser, canAssignTasks] <;>
          (cases hq : findActivePermission perms userId targetProjectId now with
            | some q =>
                simp [hq] at hfind ⊢
                exact hfind
            | none =>
                simp [hq] at hfind ⊢
                exact hfind)
  · intro hne
    cases targetUserRole <;> simp_all [canAssignTaskToUser]
  · intro ht hu hq
    subst ht; subst hu
    simp [canAssignTaskToUser, canAssignTasks, hq]

/-- C6 counterexample: with two expired grants, the sweep's event trace is
notify 1, notify 2, flip 1, flip 2 — grant 1's flag is NOT flipped
immediately after its notification (the flips form one final bulk pass). -/
theorem c6_counterexample :
    expiredPredicate 100
      { _id := 1, userId := 10, projectId := 20, grantedBy := 5,
        expiresAt := 50, isActive := true, reason := none } = true ∧
    (expirePermissions
      [{ _id := 1, userId := 10, projectId := 20, grantedBy := 5,
         expiresAt := 50, isActive := true, reason := none },
       { _id := 2, userId := 11, projectId := 21, grantedBy := 5,
         expiresAt := 60, isActive := true, reason := none }] 100).2 =
      [ExpireEvent.notifyExpired 1, ExpireEvent.notifyExpired 2,
       ExpireEvent.deactivate 1, ExpireEvent.deactivate 2] ∧
    flipImmediatelyAfterNotify
      (expirePermissions
        [{ _id := 1, userId := 10, projectId := 20, grantedBy := 5,
           expiresAt := 50, isActive := true, reason := none },
         { _id := 2, userId := 11, projectId := 21, grantedBy := 5,
           expiresAt := 60, isActive := true, reason := none }] 100).2 1 = false := by
  decide

/-- C6 (amended): every grant matched by the expiry sweep has its
notification emitted strictly before its flag flip, but the trace is all
notifications followed by one bulk pass of flag flips; afterwards no row
still matches the sweep predicate. -/
theorem c6_amended_notify_before_bulk_flip (perms : List TemporaryPermission)
    (now : Nat) :
    (∀ q ∈ perms, expiredPredicate now q = true →
      List.Sublist
        [ExpireEvent.notifyExpired q._id, ExpireEvent.deactivate q._id]
        (expirePermissions perms now).2) ∧
    (∃ pre post, (expirePermissions perms now).2 = pre ++ post ∧
      (∀ e ∈ pre, ∃ a, e = ExpireEvent.notifyExpired a) ∧
      (∀ e ∈ post, ∃ a, e = ExpireEvent.deactivate a)) ∧
    (∀ q ∈ (expirePermissions perms now).1, expiredPredicate now q = false) := by
  refine ⟨?_, ?_, ?_⟩
  · intro q hq hmatch
    have hqm : q ∈ perms.filter (expiredPredicate now) :=
      List.mem_filter.mpr ⟨hq, hmatch⟩
    have h1 : [ExpireEvent.notifyExpired q._id].Sublist
        ((perms.filter (expiredPredicate now)).map
          fun q => ExpireEvent.notifyExpired q._id) :=
      List.singleton_sublist.mpr (List.mem_map_of_mem _ hqm)
    have h2 : [ExpireEvent.deactivate q._id].Sublist
        ((perms.filter (expiredPredicate now)).map
          fun q => ExpireEvent.deactivate q._id) :=
      List.singleton_sublist.mpr (List.mem_map_of_mem _ hqm)
    exact h1.append h2
  · refine ⟨_, _, rfl, ?_, ?_⟩
    · intro e he
      rcases List.mem_map.mp he with ⟨q, _, rfl⟩
      exact ⟨q._id, rfl⟩
    · intro e he
      rcases List.mem_map.mp he with ⟨q, _, rfl⟩
      exact ⟨q._id, rfl⟩
  · intro q hq
    rcases List.mem_map.mp hq with ⟨q', _, rfl⟩
    by_cases hm : expiredPredicate now q' = true
    · rw [if_pos hm]
      simp [expiredPredicate]
    · rw [if_neg hm]
      simpa using hm

/-- Rows built from completed entries are COMPLETED with progress 100. -/
theorem mem_mkCompletedRows {t : EODTask} :
    ∀ {base reportId : Nat} {l : List EODTaskInput},
      t ∈ mkCompletedRows base reportId l →
      t.status = .COMPLETED ∧ t.progress = 100 := by
  intro base reportId l
  induction l generalizing base with
  | nil => intro h; cases h
  | cons a rest ih =>
    intro h
    rcases List.mem_cons.mp h with rfl | h'
    · exact ⟨rfl, rfl⟩
    · exact ih h'

/-- Rows built from in-progress entries are IN_PROGRESS with the entry's
progress, defaulted to 0. -/
theorem mem_mkInProgressRows {t : EODTask} :
    ∀ {base reportId : Nat} {l : List EODTaskInput},
      t ∈ mkInProgressRows base reportId l →
      ∃ e ∈ l, t.status = .IN_PROGRESS ∧ t.progress = e.progress.getD 0 := by
  intro base reportId l
  induction l generalizing base with
  | nil => intro h; cases h
  | cons a rest ih =>
    intro h
    rcases List.mem_cons.mp h with rfl | h'
    · exact ⟨a, List.mem_cons_self a rest, rfl, rfl⟩
    · rcases ih h' with ⟨e, he, hst, hp⟩
      exact ⟨e, List.mem_cons_of_mem a he, hst, hp⟩

/-- `createEODReportSchema` validity includes the in-progress bound. -/
theorem createSchemaValid_ip (i : ReportInput)
    (h : createSchemaValid i = true) :
    (i.inProgressTasks.getD []).all taskEntryValid = true := by
  cases hall : (i.inProgressTasks.getD []).all taskEntryValid
  · exfalso
    unfold createSchemaValid at h
    rw [hall] at h
    simp at h
  · rfl

/-- `submitEODReportSchema` validity includes the in-progress bound. -/
theorem submitSchemaValid_ip (i : ReportInput)
    (h : submitSchemaValid i = true) :
    (i.inProgressTasks.getD []).all taskEntryValid = true := by
  cases hall : (i.inProgressTasks.getD []).all taskEntryValid
  · exfalso
    unfold submitSchemaValid at h
    rw [hall] at h
    simp at h
  · rfl

/-- A delete-then-insert pass preserves the per-row invariant, given the
schema bound on the in-progress entries. -/
theorem taskRowOk_replace (tasks : List EODTask) (rid fb : Nat)
    (c ip : List EODTaskInput) (hold : ∀ t ∈ tasks, taskRowOk t)
    (hip : ip.all taskEntryValid = true) :
    ∀ t ∈ replaceEodTasks tasks rid fb c ip, taskRowOk t := by
  intro t ht
  unfold replaceEodTasks buildEodTaskRows at ht
  rcases List.mem_append.mp ht with hl | hr
  · exact hold t (List.mem_of_mem_filter hl)
  · rcases List.mem_append.mp hr with hc | hip'
    · rcases mem_mkCompletedRows hc with ⟨hst, hp⟩
      exact ⟨fun _ => hp, fun h => by rw [hst] at h; cases h⟩
    · rcases mem_mkInProgressRows hip' with ⟨e, he, hst, hp⟩
      refine ⟨fun h => by (rw [hst] at h; cases h), fun _ => ?_⟩
      rw [hp]
      have he' := List.all_eq_true.mp hip e he
      cases hpe : e.progress with
      | none => simp
      | some p =>
          unfold taskEntryValid at he'
          rw [hpe] at he'
          simpa using he'

set_option maxHeartbeats 1600000 in
/-- `submitCore` preserves the per-row `EODTask` invariant. -/
theorem submitCore_tasks_ok (reports1 : List EODReport) (tasks : List EODTask)
    (report : EODReport) (accessible : List Nat)
    (now eod fb : Nat) (input : ReportInput)
    (hold : ∀ t ∈ tasks, taskRowOk t)
    (hip : (input.inProgressTasks.getD []).all taskEntryValid = true) :
    ∀ t ∈ (submitCore reports1 tasks report accessible now eod fb
      input).2.tasks, taskRowOk t := by
  intro t ht
  unfold submitCore at ht
  try dsimp only at ht
  repeat'
    first
    | exact hold t ht
    | exact taskRowOk_replace tasks _ fb _ _ hold hip t ht
    | split at ht

/-- C7: both the draft-save and the submit path preserve the `EODTask`
invariant — COMPLETED rows carry progress 100 and IN_PROGRESS rows carry
progress in `[0,100]`; the in-progress builder defaults an omitted
progress to 0. -/
theorem c7_task_progress_invariant (s : ReportState)
    (hs : ∀ t ∈ s.tasks, taskRowOk t) :
    (∀ (role : UserRole) (uid : Nat) (acc : List Nat)
        (today fid fb : Nat) (input : ReportInput),
      ∀ t ∈ (createOrUpdateEODReport s role uid acc today fid fb input).2.tasks,
        taskRowOk t) ∧
    (∀ (role : UserRole) (uid : Nat) (acc : List Nat)
        (now today eod fid fb : Nat) (input : ReportInput),
      ∀ t ∈ (submitEODReport s role uid acc now today eod fid fb input).2.tasks,
        taskRowOk t) ∧
    (∀ (fb rid : Nat) (e : EODTaskInput), e.progress = none →
      (buildEodTaskRows fb rid [] [e]).map (·.progress) = [0]) := by
  refine ⟨?_, ?_, ?_⟩
  · intro role uid acc today fid fb input t ht
    unfold createOrUpdateEODReport at ht
    split at ht
    · exact hs t ht
    · split at ht
      · exact hs t ht
      · rename_i hvalid
        have hv : createSchemaValid input = true := by
          revert hvalid; cases createSchemaValid input <;> simp
        have hip := createSchemaValid_ip input hv
        repeat'
          first
          | exact hs t ht
          | exact taskRowOk_replace s.tasks _ fb _ _ hs hip t ht
          | split at ht
  · intro role uid acc now today eod fid fb input t ht
    unfold submitEODReport at ht
    split at ht
    · exact hs t ht
    · split at ht
      · exact hs t ht
      · rename_i hvalid
        have hv : submitSchemaValid input = true := by
          revert hvalid; cases submitSchemaValid input <;> simp
        have hip := submitSchemaValid_ip input hv
        split at ht
        · exact hs t ht
        · split at ht
          · exact submitCore_tasks_ok _ _ _ _ _ _ _ _ hs hip t ht
          · exact submitCore_tasks_ok _ _ _ _ _ _ _ _ hs hip t ht
  · intro fb rid e he
    simp [buildEodTaskRows, mkCompletedRows, mkInProgressRows, he]

/-- `draftUpdatedReport` never changes the primary key. -/
theorem draftUpdatedReport_id (e : EODReport) (i : ReportInput) :
    (draftUpdatedReport e i)._id = e._id := by
  unfold draftUpdatedReport
  dsimp only
  by_cases h : (i.completedTasks.isSome || i.inProgressTasks.isSome) = true
  · rw [if_pos h]
  · rw [if_neg h]

/-- `pendingReport` never changes the primary key. -/
theorem pendingReport_id (r : EODReport) (i : ReportInput) :
    (pendingReport r i)._id = r._id := by
  unfold pendingReport
  by_cases h : (i.completedTasks.isSome || i.inProgressTasks.isSome) = true
  · rw [if_pos h]
  · rw [if_neg h]

/-- A row that an id-preserving rewrite fixes is still found unchanged. -/
theorem findReportById_map (l : List EODReport) (g : EODReport → EODReport)
    (hgid : ∀ x, (g x)._id = x._id) (r : EODReport) (hgr : g r = r)
    (hfound : findReportById l r._id = some r) :
    findReportById (l.map g) r._id = some r := by
  unfold findReportById at hfound ⊢
  rw [find?_map_pointwise l g _ fun x _ => by rw [hgid x], hfound,
    Option.map_some', hgr]

/-- A row with a different id than the one being written back is still
found unchanged. -/
theorem findReportById_update (l : List EODReport) (id' : Nat)
    (f : EODReport → EODReport) (hfid : ∀ x, (f x)._id = id') (r : EODReport)
    (hne : (r._id == id') = false)
    (hfound : findReportById l r._id = some r) :
    findReportById (updateReportById l id' f) r._id = some r := by
  unfold updateReportById
  refine findReportById_map l _ ?_ r ?_ hfound
  · intro x
    by_cases h : (x._id == id') = true
    · rw [if_pos h, hfid x]
      exact (eq_of_beq h).symm
    · rw [if_neg h]
  · rw [if_neg (by simp [hne])]

/-- `submitCore` never changes a report whose id differs from the one it
operates on (the finality guard makes the id comparison needed only for
non-final targets). -/
theorem findReportById_submitCore (reports1 : List EODReport)
    (tasks : List EODTask) (report : EODReport) (acc : List Nat)
    (now eod fb : Nat) (input : ReportInput) (r : EODReport)
    (hfound : findReportById reports1 r._id = some r)
    (hne : report.isFinal = false → (r._id == report._id) = false) :
    findReportById
      (submitCore reports1 tasks report acc now eod fb input).2.reports
      r._id = some r := by
  unfold submitCore
  try dsimp only
  split
  · exact hfound
  · rename_i hnotfin
    have hfin' : report.isFinal = false := by
      revert hnotfin; cases report.isFinal <;> simp
    have hne' := hne hfin'
    split
    · exact hfound
    · split
      · refine findReportById_update reports1 report._id _ ?_ r hne' hfound
        intro x
        exact pendingReport_id report input
      · split
        · exact hfound
        · split
          · exact hfound
          · split
            · exact hfound
            · refine findReportById_update reports1 report._id _ ?_ r hne' hfound
              intro x
              exact pendingReport_id report input

/-- C1: once a report is final, none of the five operations on the report
table (draft save, submit, and the three sweeps) changes any of its
fields: looking it up by id afterwards returns the identical row.  Each
mutation path either rejects with the final-report error before writing or
excludes `isFinal = true` rows by its predicate. -/
theorem c1_final_report_immutable (s : ReportState) (op : ReportOp)
    (r : EODReport)
    (hnd : (s.reports.map (·._id)).Nodup)
    (hfresh : ∀ fid ∈ opFreshReportIds op, ∀ x ∈ s.reports, x._id ≠ fid)
    (hr : r ∈ s.reports) (hfin : r.isFinal = true) :
    findReportById (reportStep s op).reports r._id = some r := by
  have hfound : findReportById s.reports r._id = some r := by
    unfold findReportById
    exact find?_key_of_nodup (fun x => x._id) s.reports r hnd hr
  cases op with
  | draft role uid acc today fid fb input =>
    show findReportById
      (createOrUpdateEODReport s role uid acc today fid fb input).2.reports
      r._id = some r
    unfold createOrUpdateEODReport
    split
    · exact hfound
    · split
      · exact hfound
      · split
        · exact hfound
        · split
          · exact hfound
          · split
            · rename_i existing hfind
              split
              · exact hfound
              · rename_i hnotfin
                have hmem : existing ∈ s.reports :=
                  List.mem_of_find?_eq_some hfind
                have hne : (r._id == existing._id) = false := by
                  apply beq_false_of_ne
                  intro h
                  have hre : r = existing :=
                    List.inj_on_of_nodup_map hnd hr hmem h
                  rw [← hre] at hnotfin
                  exact hnotfin hfin
                exact findReportById_update s.reports existing._id _
                  (fun _ => draftUpdatedReport_id existing input) r hne hfound
            · exact find?_append_left _ s.reports _ r hfound
  | submit role uid acc now today eod fid fb input =>
    show findReportById
      (submitEODReport s role uid acc now today eod fid fb input).2.reports
      r._id = some r
    unfold submitEODReport
    split
    · exact hfound
    · split
      · exact hfound
      · split
        · exact hfound
        · split
          · rename_i existing hfind
            refine findReportById_submitCore _ _ _ _ _ _ _ _ _ hfound ?_
            intro hnotfin
            apply beq_false_of_ne
            intro h
            have hmem : existing ∈ s.reports := List.mem_of_find?_eq_some hfind
            have hre : r = existing := List.inj_on_of_nodup_map hnd hr hmem h
            rw [← hre] at hnotfin
            rw [hnotfin] at hfin
            cases hfin
          · refine findReportById_submitCore _ _ _ _ _ _ _ _ _
              (find?_append_left _ s.reports _ r hfound) ?_
            intro _
            apply beq_false_of_ne
            intro h
            exact hfresh fid (by simp [opFreshReportIds]) r hr h
  | sweepScheduled now =>
    show findReportById (processScheduledSubmissions s.reports now) r._id
      = some r
    unfold processScheduledSubmissions
    refine findReportById_map _ _ ?_ r ?_ hfound
    · intro x
      by_cases h : scheduledDuePredicate now x = true
      · rw [if_pos h]
      · rw [if_neg h]
    · rw [if_neg (by simp [scheduledDuePredicate, hfin])]
  | sweepEndOfDay ts tm now =>
    show findReportById (autoSubmitDraftsAtEndOfDay s.reports ts tm now) r._id
      = some r
    unfold autoSubmitDraftsAtEndOfDay
    refine findReportById_map _ _ ?_ r ?_ hfound
    · intro x
      by_cases h : draftTodayPredicate ts tm x = true
      · rw [if_pos h]
      · rw [if_neg h]
    · rw [if_neg (by simp [draftTodayPredicate, hfin])]
  | sweepFinalize ys ts =>
    show findReportById (finalizeReportsAtMidnight s.reports ys ts) r._id
      = some r
    unfold finalizeReportsAtMidnight
    refine findReportById_map _ _ ?_ r ?_ hfound
    · intro x
      by_cases h : submittedYesterdayPredicate ys ts x = true
      · rw [if_pos h]
      · rw [if_neg h]
    · rw [if_neg (by simp [submittedYesterdayPredicate, hfin])]

/-- `pendingReport` never changes the status. -/
theorem pendingReport_status (r : EODReport) (i : ReportInput) :
    (pendingReport r i).status = r.status := by
  unfold pendingReport
  by_cases h : (i.completedTasks.isSome || i.inProgressTasks.isSome) = true
  · rw [if_pos h]
  · rw [if_neg h]

/-- `pendingReport` never changes the finality flag. -/
theorem pendingReport_isFinal (r : EODReport) (i : ReportInput) :
    (pendingReport r i).isFinal = r.isFinal := by
  unfold pendingReport
  by_cases h : (i.completedTasks.isSome || i.inProgressTasks.isSome) = true
  · rw [if_pos h]
  · rw [if_neg h]

/-- Looking up the id a write-back targeted returns the rewritten row. -/
theorem findReportById_update_self (l : List EODReport) (id : Nat)
    (f : EODReport → EODReport) (hfid : ∀ x, (f x)._id = id)
    (r : EODReport) (hfound : findReportById l id = some r) :
    findReportById (updateReportById l id f) id = some (f r) := by
  unfold findReportById updateReportById at *
  have hpt : ∀ x ∈ l,
      (((if x._id == id then f x else x))._id == id) = (x._id == id) := by
    intro x _
    by_cases h : (x._id == id) = true
    · rw [if_pos h, hfid x, h]
      simp
    · rw [if_neg h]
  rw [find?_map_pointwise l _ _ hpt, hfound, Option.map_some']
  have hPr : (r._id == id) = true := by
    have hp := List.find?_some hfound
    simpa using hp
  rw [if_pos hPr]

/-- Looking up a row after a sweep returns its conditional rewrite. -/
theorem findReportById_sweep_self (l : List EODReport) (id : Nat)
    (r : EODReport) (hfound : findReportById l id = some r) (now' : Nat) :
    findReportById (processScheduledSubmissions l now') id =
      some (if scheduledDuePredicate now' r then
              { r with status := .SUBMITTED, submittedAt := some now',
                       scheduledSubmitAt := none }
            else r) := by
  unfold findReportById processScheduledSubmissions at *
  have hpt : ∀ x ∈ l,
      (((if scheduledDuePredicate now' x then
          { x with status := EODStatus.SUBMITTED, submittedAt := some now',
                   scheduledSubmitAt := none }
        else x))._id == id) = (x._id == id) := by
    intro x _
    by_cases h : scheduledDuePredicate now' x = true
    · rw [if_pos h]
    · rw [if_neg h]
  rw [find?_map_pointwise l _ _ hpt, hfound, Option.map_some']

/-- The created fresh draft is found in the extended table when its id is
genuinely fresh. -/
theorem findReportById_append_fresh (l : List EODReport) (d : EODReport)
    (hfresh : ∀ x ∈ l, x._id ≠ d._id) :
    findReportById (l ++ [d]) d._id = some d := by
  unfold findReportById
  rw [find?_append_of_none _ l [d] (List.find?_eq_none.mpr fun x hx => by
    simp [hfresh x hx])]
  simp [List.find?]

/-- `submitCore` with `submitNow = false`, a non-final target and passing
task validation: the three scheduled-submission failure modes, and the
success path storing `scheduledSubmitAt` without touching the status. -/
theorem submitCore_schedule (reports1 : List EODReport) (tasks : List EODTask)
    (report : EODReport) (acc : List Nat) (now endOfToday fb : Nat)
    (input : ReportInput)
    (hnow : input.submitNow = false)
    (hfin : report.isFinal = false)
    (htask : ((input.completedTasks.isSome || input.inProgressTasks.isSome) &&
        ((referencedTaskIds input).filter
          fun tid => !(acc.contains tid)) != []) = false)
    (hfound : findReportById reports1 report._id = some report) :
    (input.scheduledSubmitAt = none →
      (submitCore reports1 tasks report acc now endOfToday fb input).1 =
        Except.error .ScheduledTimeMissing ∧
      (submitCore reports1 tasks report acc now endOfToday fb
        input).2.reports = reports1) ∧
    (∀ t, input.scheduledSubmitAt = some t → t ≤ now →
      (submitCore reports1 tasks report acc now endOfToday fb input).1 =
        Except.error .ScheduledTimeNotFuture ∧
      (submitCore reports1 tasks report acc now endOfToday fb
        input).2.reports = reports1) ∧
    (∀ t, input.scheduledSubmitAt = some t → now < t → endOfToday < t →
      (submitCore reports1 tasks report acc now endOfToday fb input).1 =
        Except.error .ScheduledAfterEndOfDay ∧
      (submitCore reports1 tasks report acc now endOfToday fb
        input).2.reports = reports1) ∧
    (∀ t, input.scheduledSubmitAt = some t → now < t → t ≤ endOfToday →
      (submitCore reports1 tasks report acc now endOfToday fb input).1 =
        Except.ok () ∧
      findReportById
        (submitCore reports1 tasks report acc now endOfToday fb
          input).2.reports report._id =
        some { pendingReport report input with scheduledSubmitAt := some t }) := by
  unfold submitCore
  rw [if_neg (by simp [hfin]),
    if_neg (by intro h; rw [htask] at h; exact Bool.false_ne_true h)]
  try dsimp only
  rw [if_neg (by simp [hnow])]
  refine ⟨?_, ?_, ?_, ?_⟩
  · intro hnone
    simp only [hnone]
    exact ⟨by trivial, by trivial⟩
  · intro t hsome hle
    simp only [hsome]
    rw [if_pos hle]
    exact ⟨by trivial, by trivial⟩
  · intro t hsome hlt hgt
    simp only [hsome]
    rw [if_neg (Nat.not_le.mpr hlt), if_pos hgt]
    exact ⟨by trivial, by trivial⟩
  · intro t hsome hlt hle
    simp only [hsome]
    rw [if_neg (Nat.not_le.mpr hlt), if_neg (Nat.not_lt.mpr hle)]
    refine ⟨rfl, ?_⟩
    refine findReportById_update_self reports1 report._id _ ?_ report hfound
    intro x
    exact pendingReport_id report input

/-- `submitCore` on an inaccessible task id: rejects, leaving the report
table (incl. any implicitly created draft) as it was. -/
theorem submitCore_taskError (reports1 : List EODReport) (tasks : List EODTask)
    (report : EODReport) (acc : List Nat) (now endOfToday fb : Nat)
    (input : ReportInput)
    (hfin : report.isFinal = false)
    (htask : ((input.completedTasks.isSome || input.inProgressTasks.isSome) &&
        ((referencedTaskIds input).filter
          fun tid => !(acc.contains tid)) != []) = true) :
    submitCore reports1 tasks report acc now endOfToday fb input =
      (Except.error .TaskNotAccessible, ⟨reports1, tasks⟩) := by
  unfold submitCore
  rw [if_neg (by simp [hfin]), if_pos htask]
  try dsimp only

/-- C4: for a developer's `submitReport` call with `submitNow = false`
(valid payload, today's date, non-final target, accessible tasks): the
call fails when `scheduledSubmitAt` is absent, not strictly in the future,
or after today's end-of-day cutoff; otherwise it succeeds, the stored
report keeps its status (so a DRAFT stays DRAFT) with `scheduledSubmitAt`
recorded, and the `processScheduledSubmissions` sweep performs the
promotion to SUBMITTED once the scheduled time arrives. -/
theorem c4_scheduled_submit_validation (s : ReportState) (userId : Nat)
    (accessible : List Nat) (now today endOfToday freshId freshBase : Nat)
    (input : ReportInput) (report0 : EODReport)
    (R : Except ReportError Unit × ReportState)
    (hnd : (s.reports.map (·._id)).Nodup)
    (hfreshid : ∀ x ∈ s.reports, x._id ≠ freshId)
    (hrep : report0 = (findReportFor s.reports userId today).getD
        (freshDraft freshId userId today))
    (hR : R = submitEODReport s .DEVELOPER userId accessible now today
        endOfToday freshId freshBase input)
    (hnow : input.submitNow = false)
    (hsch : submitSchemaValid input = true)
    (hdate : input.reportDate.getD today = today)
    (hfin : report0.isFinal = false)
    (htask : ((input.completedTasks.isSome || input.inProgressTasks.isSome) &&
        ((referencedTaskIds input).filter
          fun tid => !(accessible.contains tid)) != []) = false) :
    (input.scheduledSubmitAt = none →
      R.1 = Except.error .ScheduledTimeMissing) ∧
    (∀ t, input.scheduledSubmitAt = some t → t ≤ now →
      R.1 = Except.error .ScheduledTimeNotFuture) ∧
    (∀ t, input.scheduledSubmitAt = some t → now < t → endOfToday < t →
      R.1 = Except.error .ScheduledAfterEndOfDay) ∧
    (∀ t, input.scheduledSubmitAt = some t → now < t → t ≤ endOfToday →
      R.1 = Except.ok () ∧
      ∃ r', findReportById R.2.reports report0._id = some r' ∧
        r'.scheduledSubmitAt = some t ∧ r'.status = report0.status ∧
        r'.isFinal = false ∧
        (report0.status = .DRAFT → ∀ now', t ≤ now' →
          ∃ r'', findReportById
              (processScheduledSubmissions R.2.reports now') report0._id =
                some r'' ∧ r''.status = .SUBMITTED)) := by
  subst hR
  subst hrep
  unfold submitEODReport
  rw [if_neg (by simp), if_neg (by simp [hsch]), if_neg (by simp [hdate]),
    hdate]
  cases hfind : findReportFor s.reports userId today with
  | some existing =>
    simp only [hfind, Option.getD_some] at hfin ⊢
    have hmem : existing ∈ s.reports := List.mem_of_find?_eq_some hfind
    have hfound : findReportById s.reports existing._id = some existing := by
      unfold findReportById
      exact find?_key_of_nodup (fun x => x._id) s.reports existing hnd hmem
    have hcore := submitCore_schedule s.reports s.tasks existing accessible
      now endOfToday freshBase input hnow hfin htask hfound
    refine ⟨fun hnone => (hcore.1 hnone).1,
      fun t hsome hle => ((hcore.2.1) t hsome hle).1,
      fun t hsome hlt hgt => ((hcore.2.2.1) t hsome hlt hgt).1,
      fun t hsome hlt hle => ?_⟩
    obtain ⟨hok, hfindr⟩ := (hcore.2.2.2) t hsome hlt hle
    refine ⟨hok, { pendingReport existing input with
        scheduledSubmitAt := some t }, hfindr, rfl,
      pendingReport_status existing input, ?_, ?_⟩
    · show (pendingReport existing input).isFinal = false
      rw [pendingReport_isFinal]
      exact hfin
    · intro hdraft now' hle'
      have hpred : scheduledDuePredicate now'
          { pendingReport existing input with
            scheduledSubmitAt := some t } = true := by
        have hst : ({ pendingReport existing input with
            scheduledSubmitAt := some t }).status = EODStatus.DRAFT := by
          show (pendingReport existing input).status = EODStatus.DRAFT
          rw [pendingReport_status]
          exact hdraft
        have hfn : ({ pendingReport existing input with
            scheduledSubmitAt := some t }).isFinal = false := by
          show (pendingReport existing input).isFinal = false
          rw [pendingReport_isFinal]
          exact hfin
        have hsc : ({ pendingReport existing input with
            scheduledSubmitAt := some t }).scheduledSubmitAt = some t := rfl
        unfold scheduledDuePredicate
        rw [hsc, hst, hfn]
        simp [hle']
      refine ⟨{ { pendingReport existing input with
          scheduledSubmitAt := some t } with
          status := .SUBMITTED, submittedAt := some now',
          scheduledSubmitAt := none }, ?_, rfl⟩
      rw [findReportById_sweep_self _ _ _ hfindr now', if_pos hpred]
  | none =>
    simp only [hfind, Option.getD_none] at hfin ⊢
    have hfound : findReportById
        (s.reports ++ [freshDraft freshId userId today])
        (freshDraft freshId userId today)._id =
        some (freshDraft freshId userId today) :=
      findReportById_append_fresh s.reports _ fun x hx => hfreshid x hx
    have hcore := submitCore_schedule
      (s.reports ++ [freshDraft freshId userId today]) s.tasks
      (freshDraft freshId userId today) accessible now endOfToday freshBase
      input hnow rfl htask hfound
    refine ⟨fun hnone => (hcore.1 hnone).1,
      fun t hsome hle => ((hcore.2.1) t hsome hle).1,
      fun t hsome hlt hgt => ((hcore.2.2.1) t hsome hlt hgt).1,
      fun t hsome hlt hle => ?_⟩
    obtain ⟨hok, hfindr⟩ := (hcore.2.2.2) t hsome hlt hle
    refine ⟨hok, { pendingReport (freshDraft freshId userId today) input with
        scheduledSubmitAt := some t }, hfindr, rfl,
      pendingReport_status _ input, ?_, ?_⟩
    · show (pendingReport (freshDraft freshId userId today) input).isFinal
          = false
      rw [pendingReport_isFinal]
      rfl
    · intro hdraft now' hle'
      have hpred : scheduledDuePredicate now'
          { pendingReport (freshDraft freshId userId today) input with
            scheduledSubmitAt := some t } = true := by
        have hst : ({ pendingReport (freshDraft freshId userId today) input with
            scheduledSubmitAt := some t }).status = EODStatus.DRAFT := by
          show (pendingReport (freshDraft freshId userId today) input).status
              = EODStatus.DRAFT
          rw [pendingReport_status]
          exact hdraft
        have hfn : ({ pendingReport (freshDraft freshId userId today) input with
            scheduledSubmitAt := some t }).isFinal = false := by
          show (pendingReport (freshDraft freshId userId today) input).isFinal
              = false
          rw [pendingReport_isFinal]
          rfl
        have hsc : ({ pendingReport (freshDraft freshId userId today) input with
            scheduledSubmitAt := some t }).scheduledSubmitAt = some t := rfl
        unfold scheduledDuePredicate
        rw [hsc, hst, hfn]
        simp [hle']
      refine ⟨{ { pendingReport (freshDraft freshId userId today) input with
          scheduledSubmitAt := some t } with
          status := .SUBMITTED, submittedAt := some now',
          scheduledSubmitAt := none }, ?_, rfl⟩
      rw [findReportById_sweep_self _ _ _ hfindr now', if_pos hpred]

/-- C9: when a developer with no report for today calls submit, the new
DRAFT report is created and saved before task accessibility and
scheduled-time validation run; on any of those failures the call is not
atomic — the created DRAFT (with zero counts) persists in the table. -/
theorem c9_failed_submit_keeps_created_draft (s : ReportState) (userId : Nat)
    (accessible : List Nat) (now today endOfToday freshId freshBase : Nat)
    (input : ReportInput)
    (R : Except ReportError Unit × ReportState)
    (hR : R = submitEODReport s .DEVELOPER userId accessible now today
        endOfToday freshId freshBase input)
    (hfreshid : ∀ x ∈ s.reports, x._id ≠ freshId)
    (hsch : submitSchemaValid input = true)
    (hdate : input.reportDate.getD today = today)
    (hnone : findReportFor s.reports userId today = none) :
    (((input.completedTasks.isSome || input.inProgressTasks.isSome) &&
        ((referencedTaskIds input).filter
          fun tid => !(accessible.contains tid)) != []) = true →
      R.1 = Except.error .TaskNotAccessible ∧
      findReportById R.2.reports freshId =
        some (freshDraft freshId userId today)) ∧
    (((input.completedTasks.isSome || input.inProgressTasks.isSome) &&
        ((referencedTaskIds input).filter
          fun tid => !(accessible.contains tid)) != []) = false →
      input.submitNow = false →
      (input.scheduledSubmitAt = none →
        R.1 = Except.error .ScheduledTimeMissing ∧
        findReportById R.2.reports freshId =
          some (freshDraft freshId userId today)) ∧
      (∀ t, input.scheduledSubmitAt = some t → t ≤ now →
        R.1 = Except.error .ScheduledTimeNotFuture ∧
        findReportById R.2.reports freshId =
          some (freshDraft freshId userId today)) ∧
      (∀ t, input.scheduledSubmitAt = some t → now < t → endOfToday < t →
        R.1 = Except.error .ScheduledAfterEndOfDay ∧
        findReportById R.2.reports freshId =
          some (freshDraft freshId userId today))) := by
  subst hR
  unfold submitEODReport
  rw [if_neg (by simp), if_neg (by simp [hsch]), if_neg (by simp [hdate]),
    hdate]
  simp only [hnone]
  have hfound : findReportById
      (s.reports ++ [freshDraft freshId userId today])
      (freshDraft freshId userId today)._id =
      some (freshDraft freshId userId today) :=
    findReportById_append_fresh s.reports _ fun x hx => hfreshid x hx
  constructor
  · intro htask
    rw [submitCore_taskError (s.reports ++ [freshDraft freshId userId today])
      s.tasks (freshDraft freshId userId today) accessible now endOfToday
      freshBase input rfl htask]
    exact ⟨rfl, hfound⟩
  · intro htask hnowf
    have hcore := submitCore_schedule
      (s.reports ++ [freshDraft freshId userId today]) s.tasks
      (freshDraft freshId userId today) accessible now endOfToday freshBase
      input hnowf rfl htask hfound
    refine ⟨?_, ?_, ?_⟩
    · intro hnone'
      obtain ⟨herr, hrep'⟩ := hcore.1 hnone'
      refine ⟨herr, ?_⟩
      rw [hrep']
      exact hfound
    · intro t hsome hle
      obtain ⟨herr, hrep'⟩ := (hcore.2.1) t hsome hle
      refine ⟨herr, ?_⟩
      rw [hrep']
      exact hfound
    · intro t hsome hlt hgt
      obtain ⟨herr, hrep'⟩ := (hcore.2.2.1) t hsome hlt hgt
      refine ⟨herr, ?_⟩
      rw [hrep']
      exact hfound

/-- C8 counterexample: `createPermissionRequest` has no authorize
middleware on its route; a MANAGER (not an authorized requester — only
developers may request) sending a malformed payload
(`requestedDurationDays = 200 ∉ [1,90]`) receives the validation error,
not the authorization error the claim requires. -/
theorem c8_counterexample :
    createRequestPipeline ⟨[], []⟩ [] [] 0 1 .MANAGER 9
        ⟨5, 200, "need to triage bugs"⟩ =
      (Except.error .ValidationFailed, []) ∧
    (Except.error PermError.ValidationFailed :
        Except PermError Unit) ≠ Except.error .InsufficientPermissions := by
  constructor
  · rfl
  · simp

/-- C8 (amended): `grantPermission`, `revokePermission` and
`reviewPermissionRequest` run the `authorize` route middleware before any
validation, so an unauthorized caller gets the authorization error
whatever the payload; `createPermissionRequest` has no authorize
middleware — its payload is schema-validated first and its developer-only
check runs inside the controller afterwards, so there an unauthorized
caller with a malformed payload gets the validation error. -/
theorem c8_amended_authorization_order :
    (∀ (env : Env) (perms : List TemporaryPermission) (now gid : Nat)
        (grole : UserRole) (fid : Nat) (input : GrantInput),
      grole ≠ .MANAGER → grole ≠ .GROUP_HEAD →
      grantPermissionPipeline env perms now gid grole fid input =
        (Except.error .InsufficientPermissions, perms)) ∧
    (∀ (perms : List TemporaryPermission) (grole : UserRole) (id : Nat),
      grole ≠ .MANAGER → grole ≠ .GROUP_HEAD →
      revokePermissionPipeline perms grole id =
        (Except.error .InsufficientPermissions, perms)) ∧
    (∀ (env : Env) (requests : List PermissionRequest)
        (perms : List TemporaryPermission) (now rid : Nat) (rrole : UserRole)
        (fid reqId : Nat) (input : ReviewInput),
      rrole ≠ .MANAGER → rrole ≠ .GROUP_HEAD →
      reviewPermissionPipeline env requests perms now rid rrole fid reqId
          input =
        (Except.error .InsufficientPermissions, requests, perms)) ∧
    (∀ (env : Env) (requests : List PermissionRequest)
        (perms : List TemporaryPermission) (now rqid : Nat) (rrole : UserRole)
        (fid : Nat) (input : CreateRequestInput),
      createRequestSchemaValid input = false →
      createRequestPipeline env requests perms now rqid rrole fid input =
        (Except.error .ValidationFailed, requests)) ∧
    (∀ (env : Env) (requests : List PermissionRequest)
        (perms : List TemporaryPermission) (now rqid : Nat) (rrole : UserRole)
        (fid : Nat) (input : CreateRequestInput),
      createRequestSchemaValid input = true → rrole ≠ .DEVELOPER →
      createRequestPipeline env requests perms now rqid rrole fid input =
        (Except.error .InsufficientPermissions, requests)) := by
  refine ⟨?_, ?_, ?_, ?_, ?_⟩
  · intro env perms now gid grole fid input h1 h2
    cases grole <;> simp_all [grantPermissionPipeline]
  · intro perms grole id h1 h2
    cases grole <;> simp_all [revokePermissionPipeline]
  · intro env requests perms now rid rrole fid reqId input h1 h2
    cases rrole <;> simp_all [reviewPermissionPipeline]
  · intro env requests perms now rqid rrole fid input hv
    simp [createRequestPipeline, hv]
  · intro env requests perms now rqid rrole fid input hv hr
    cases rrole <;>
      simp_all [createRequestPipeline, createPermissionRequest]

/-- C10: an authorized `grantPermission` call with a valid payload fails
with the not-found error when the target user does not exist, and with the
not-a-developer validation error when the target's role is not DEVELOPER;
in both cases the permission table is unchanged (checks precede writes). -/
theorem c10_grant_target_checks (env : Env)
    (perms : List TemporaryPermission) (now gid : Nat) (grole : UserRole)
    (fid : Nat) (input : GrantInput)
    (hrole : grole = .MANAGER ∨ grole = .GROUP_HEAD)
    (hsch : grantSchemaValid input = true) :
    (lookupUser env input.userId = none →
      grantPermissionPipeline env perms now gid grole fid input =
        (Except.error .UserNotFound, perms)) ∧
    (∀ r, lookupUser env input.userId = some r → r ≠ .DEVELOPER →
      grantPermissionPipeline env perms now gid grole fid input =
        (Except.error .UserNotDeveloper, perms)) := by
  have hrb : (grole == UserRole.MANAGER || grole == UserRole.GROUP_HEAD)
      = true := by
    rcases hrole with rfl | rfl <;> rfl
  constructor
  · intro hnone
    unfold grantPermissionPipeline grantTemporaryPermission
    rw [if_neg (by simp [hrb]), if_neg (by simp [hsch]),
      if_neg (by simp [hsch]), if_neg (by simp [hrb])]
    simp only [hnone]
  · intro r hsome hr
    unfold grantPermissionPipeline grantTemporaryPermission
    rw [if_neg (by simp [hrb]), if_neg (by simp [hsch]),
      if_neg (by simp [hsch]), if_neg (by simp [hrb])]
    simp only [hsome]
    rw [if_pos (by cases r <;> simp_all)]

/-- Growing the time reference only shrinks the set of active rows. -/
theorem activeCount_mono (perms : List TemporaryPermission) (u p : Nat)
    {t t' : Nat} (h : t ≤ t') :
    activeCount perms u p t' ≤ activeCount perms u p t := by
  unfold activeCount
  apply length_filter_le_filter
  intro q _ hq
  simp only [activePredicate, Bool.and_eq_true, decide_eq_true_eq] at hq ⊢
  exact ⟨⟨⟨hq.1.1.1, hq.1.1.2⟩, hq.1.2⟩, lt_of_le_of_lt h hq.2⟩

/-- A schema-valid grant duration is at least one day. -/
theorem grantSchemaValid_dur (i : GrantInput)
    (h : grantSchemaValid i = true) : 1 ≤ i.durationDays.getD 7 := by
  cases hd : i.durationDays with
  | none => simp
  | some d =>
    simp only [Option.getD_some]
    by_contra hlt
    unfold grantSchemaValid at h
    rw [hd] at h
    simp [hlt] at h

/-- Extending an active, unexpired row keeps its active/pair status for
any pair predicate at the same instant. -/
theorem activePredicate_update_eq (now E : Nat) (e : TemporaryPermission)
    (hact : e.isActive = true) (hexp : now < e.expiresAt) (hE : now < E)
    (gid : Nat) (rsn : Option String) (u p : Nat) :
    activePredicate u p now
      { e with expiresAt := E, grantedBy := gid, reason := rsn } =
      activePredicate u p now e := by
  unfold activePredicate
  simp [hact, decide_eq_true hexp, decide_eq_true hE]

/-- Inserting a row for a pair with no active row preserves the
uniqueness invariant. -/
theorem activeCount_append_le (perms : List TemporaryPermission)
    (row : TemporaryPermission) (t : Nat)
    (hnone : findActivePermission perms row.userId row.projectId t = none)
    (hinv : GrantInv perms t) : GrantInv (perms ++ [row]) t := by
  intro u p
  have hzero : ∀ q ∈ perms,
      activePredicate row.userId row.projectId t q = false := by
    intro q hq
    have := List.find?_eq_none.mp hnone q hq
    revert this
    cases activePredicate row.userId row.projectId t q <;> simp
  unfold activeCount
  rw [List.filter_append, List.length_append]
  by_cases hrow : activePredicate u p t row = true
  · have hup : row.userId = u ∧ row.projectId = p := by
      simp only [activePredicate, Bool.and_eq_true, beq_iff_eq] at hrow
      exact ⟨hrow.1.1.1, hrow.1.1.2⟩
    have hperms : perms.filter (activePredicate u p t) = [] := by
      apply List.filter_eq_nil.mpr
      intro q hq
      rw [← hup.1, ← hup.2]
      simp [hzero q hq]
    rw [hperms]
    simp [List.filter, hrow]
  · have : ([row].filter (activePredicate u p t)) = [] := by
      simp only [Bool.not_eq_true] at hrow
      simp [List.filter, hrow]
    rw [this]
    simpa using hinv u p

/-- A rewrite that only ever clears `isActive` cannot increase any active
count. -/
theorem activeCount_deactivate_le (perms : List TemporaryPermission)
    (t : Nat) (g : TemporaryPermission → TemporaryPermission)
    (hg : ∀ q, g q = q ∨ g q = { q with isActive := false })
    (hinv : GrantInv perms t) : GrantInv (perms.map g) t := by
  intro u p
  refine le_trans (length_filter_map_le perms g _ ?_) (hinv u p)
  intro q _ hq
  rcases hg q with h | h
  · rw [h] at hq
    exact hq
  · rw [h] at hq
    simp [activePredicate] at hq

/-- `grantCore` preserves the uniqueness invariant: an update in place
keeps the count, an insert happens only when the pair has no active row. -/
theorem grantCore_inv (perms : List TemporaryPermission)
    (now gid fid : Nat) (input : GrantInput) (E : Nat)
    (hnd : (permIds perms).Nodup) (hE : now < E)
    (hinv : GrantInv perms now) :
    GrantInv (grantCore perms now gid fid input E).2 now := by
  unfold grantCore
  cases hfind : findActivePermission perms input.userId input.projectId now with
  | some e =>
    intro u p
    have hmem : e ∈ perms := List.mem_of_find?_eq_some hfind
    have hePred : activePredicate input.userId input.projectId now e = true :=
      List.find?_some hfind
    have hact : e.isActive = true := by
      simp only [activePredicate, Bool.and_eq_true] at hePred
      exact hePred.1.2
    have hexp : now < e.expiresAt := by
      simp only [activePredicate, Bool.and_eq_true, decide_eq_true_eq]
        at hePred
      exact hePred.2
    unfold activeCount updatePermById
    rw [length_filter_map_eq]
    · exact hinv u p
    · intro q hq
      by_cases hid : (q._id == e._id) = true
      · have hqe : q = e := List.inj_on_of_nodup_map hnd hq hmem (eq_of_beq hid)
        subst hqe
        rw [if_pos hid]
        exact activePredicate_update_eq now E q hact hexp hE gid input.reason u p
      · rw [if_neg hid]
  | none =>
    exact activeCount_append_le perms _ now hfind hinv

/-- The grant controller preserves the uniqueness invariant. -/
theorem grantTemporaryPermission_inv (env : Env)
    (perms : List TemporaryPermission) (now gid : Nat) (grole : UserRole)
    (fid : Nat) (input : GrantInput)
    (hnd : (permIds perms).Nodup) (hinv : GrantInv perms now) :
    GrantInv (grantTemporaryPermission env perms now gid grole fid input).2
      now := by
  unfold grantTemporaryPermission
  split
  · exact hinv
  · rename_i hvalid
    have hv : grantSchemaValid input = true := by
      revert hvalid; cases grantSchemaValid input <;> simp
    split
    · exact hinv
    · split
      · exact hinv
      · split
        · exact hinv
        · split
          · exact hinv
          · split
            · rename_i d hd
              split
              · exact hinv
              · rename_i hle
                exact grantCore_inv perms now gid fid input d hnd
                  (Nat.not_le.mp hle) hinv
            · have hdur := grantSchemaValid_dur input hv
              refine grantCore_inv perms now gid fid input _ hnd ?_ hinv
              exact Nat.lt_add_of_pos_right (Nat.mul_pos hdur (by decide))

/-- The grant route pipeline preserves the uniqueness invariant. -/
theorem grantPermissionPipeline_inv (env : Env)
    (perms : List TemporaryPermission) (now gid : Nat) (grole : UserRole)
    (fid : Nat) (input : GrantInput)
    (hnd : (permIds perms).Nodup) (hinv : GrantInv perms now) :
    GrantInv (grantPermissionPipeline env perms now gid grole fid input).2
      now := by
  unfold grantPermissionPipeline
  split
  · exact hinv
  · split
    · exact hinv
    · exact grantTemporaryPermission_inv env perms now gid grole fid input
        hnd hinv

/-- The revoke route pipeline preserves the uniqueness invariant (at any
time reference). -/
theorem revokePermissionPipeline_inv (perms : List TemporaryPermission)
    (grole : UserRole) (id : Nat) (t : Nat) (hinv : GrantInv perms t) :
    GrantInv (revokePermissionPipeline perms grole id).2 t := by
  unfold revokePermissionPipeline revokeTemporaryPermission
  split
  · exact hinv
  · split
    · exact hinv
    · unfold updatePermById
      refine activeCount_deactivate_le perms t _ ?_ hinv
      intro q
      by_cases h : (q._id == id) = true
      · right
        rw [if_pos h]
      · left
        rw [if_neg h]

/-- The expiry sweep preserves the uniqueness invariant. -/
theorem expirePermissions_inv (perms : List TemporaryPermission) (t : Nat)
    (hinv : GrantInv perms t) :
    GrantInv (expirePermissions perms t).1 t := by
  unfold expirePermissions
  refine activeCount_deactivate_le perms t _ ?_ hinv
  intro q
  by_cases h : expiredPredicate t q = true
  · right
    rw [if_pos h]
  · left
    rw [if_neg h]

/-- The review route pipeline preserves the uniqueness invariant: the
approval path re-checks for an existing active grant and inserts only when
none exists. -/
theorem reviewPermissionPipeline_inv (env : Env)
    (requests : List PermissionRequest) (perms : List TemporaryPermission)
    (now rid : Nat) (rrole : UserRole) (fid reqId : Nat) (input : ReviewInput)
    (hinv : GrantInv perms now) :
    GrantInv (reviewPermissionPipeline env requests perms now rid rrole fid
      reqId input).2.2 now := by
  unfold reviewPermissionPipeline reviewPermissionRequest
  try dsimp only
  repeat'
    first
    | exact hinv
    | exact activeCount_append_le perms _ now (by assumption) hinv
    | split

/-- Every permission operation preserves the uniqueness invariant at its
own time. -/
theorem permStep_inv (env : Env) (s : PermState) (t : Nat) (op : PermOp)
    (hnd : (permIds s.perms).Nodup) (hinv : GrantInv s.perms t) :
    GrantInv (permStep env s t op).perms t := by
  cases op with
  | opGrant gid grole fid input =>
    exact grantPermissionPipeline_inv env s.perms t gid grole fid input hnd
      hinv
  | opRevoke rrole id =>
    exact revokePermissionPipeline_inv s.perms rrole id t hinv
  | opReview rid rrole fid reqId input =>
    exact reviewPermissionPipeline_inv env s.requests s.perms t rid rrole fid
      reqId input hinv
  | opExpire => exact expirePermissions_inv s.perms t hinv

/-- An id-preserving rewrite keeps the `_id` column. -/
theorem permIds_map_preserve (perms : List TemporaryPermission)
    (g : TemporaryPermission → TemporaryPermission)
    (hg : ∀ q, (g q)._id = q._id) :
    permIds (perms.map g) = permIds perms := by
  unfold permIds
  induction perms with
  | nil => rfl
  | cons a tl ih =>
    simp only [List.map_cons]
    rw [hg a, ih]

/-- Every permission operation leaves the `_id` column unchanged or
appends exactly the op's fresh id. -/
theorem permStep_ids (env : Env) (s : PermState) (t : Nat) (op : PermOp) :
    permIds (permStep env s t op).perms = permIds s.perms ∨
    permIds (permStep env s t op).perms =
      permIds s.perms ++ opPermFreshIds op := by
  cases op with
  | opGrant gid grole fid input =>
    show permIds (grantPermissionPipeline env s.perms t gid grole fid
        input).2 = permIds s.perms ∨
      permIds (grantPermissionPipeline env s.perms t gid grole fid
        input).2 = permIds s.perms ++ [fid]
    unfold grantPermissionPipeline grantTemporaryPermission grantCore
    repeat'
      first
      | exact Or.inl rfl
      | exact Or.inl (permIds_map_preserve _ _ fun q => by split <;> rfl)
      | exact Or.inr (by unfold permIds; rw [List.map_append]; rfl)
      | split
  | opRevoke rrole id =>
    show permIds (revokePermissionPipeline s.perms rrole id).2 =
        permIds s.perms ∨
      permIds (revokePermissionPipeline s.perms rrole id).2 =
        permIds s.perms ++ []
    unfold revokePermissionPipeline revokeTemporaryPermission
    repeat'
      first
      | exact Or.inl rfl
      | exact Or.inl (permIds_map_preserve _ _ fun q => by split <;> rfl)
      | split
  | opReview rid rrole fid reqId input =>
    show permIds (reviewPermissionPipeline env s.requests s.perms t rid rrole
        fid reqId input).2.2 = permIds s.perms ∨
      permIds (reviewPermissionPipeline env s.requests s.perms t rid rrole
        fid reqId input).2.2 = permIds s.perms ++ [fid]
    unfold reviewPermissionPipeline reviewPermissionRequest
    try dsimp only
    repeat'
      first
      | exact Or.inl rfl
      | exact Or.inr (by unfold permIds; rw [List.map_append]; rfl)
      | split
  | opExpire =>
    exact Or.inl (permIds_map_preserve _ _ fun q => by split <;> rfl)

/-- Running any schedule of permission operations with nondecreasing
times, from a state satisfying the uniqueness invariant (with genuinely
fresh minted ids), preserves the invariant through to any later time. -/
theorem runPerm_inv (env : Env) (ops : List (PermOp × Nat)) :
    ∀ (s : PermState) (t0 tEnd : Nat),
      (permIds s.perms ++ schedFreshIds ops).Nodup →
      GrantInv s.perms t0 →
      timesChain t0 ops tEnd →
      GrantInv (runPerm env s ops).perms tEnd := by
  induction ops with
  | nil =>
    intro s t0 tEnd hnd hinv hchain u p
    exact le_trans (activeCount_mono s.perms u p hchain) (hinv u p)
  | cons opt rest ih =>
    obtain ⟨op, t⟩ := opt
    intro s t0 tEnd hnd hinv hchain
    obtain ⟨hle, hchain'⟩ := hchain
    have hnd0 : (permIds s.perms).Nodup :=
      (List.sublist_append_left _ _).nodup hnd
    have hinvt : GrantInv s.perms t := fun u p =>
      le_trans (activeCount_mono s.perms u p hle) (hinv u p)
    have hstep := permStep_inv env s t op hnd0 hinvt
    rcases permStep_ids env s t op with hids | hids
    · refine ih (permStep env s t op) t tEnd ?_ hstep hchain'
      rw [hids]
      exact ((List.Sublist.refl _).append
        (List.sublist_append_right _ _)).nodup hnd
    · refine ih (permStep env s t op) t tEnd ?_ hstep hchain'
      rw [hids, List.append_assoc]
      exact hnd

set_option maxHeartbeats 800000 in
/-- C2: (a) after any schedule of grant / revoke / approve-review / expire
operations with nondecreasing times (and genuinely fresh minted ids), each
(userId, projectId) pair has at most one row with `isActive = true` and
`expiresAt > now`; (b) granting again while an active grant exists updates
that row in place — same table length, no insert — and the pair's single
active row carries the newly computed expiry, grantedBy and reason. -/
theorem c2_grant_uniqueness_and_merge :
    (∀ (env : Env) (s : PermState) (ops : List (PermOp × Nat)) (t0 tEnd : Nat),
      (permIds s.perms ++ schedFreshIds ops).Nodup →
      GrantInv s.perms t0 →
      timesChain t0 ops tEnd →
      ∀ u p, activeCount (runPerm env s ops).perms u p tEnd ≤ 1) ∧
    (∀ (env : Env) (perms : List TemporaryPermission) (now gid : Nat)
        (grole : UserRole) (fid : Nat) (input : GrantInput)
        (e : TemporaryPermission),
      (permIds perms).Nodup →
      (grole = .MANAGER ∨ grole = .GROUP_HEAD) →
      grantSchemaValid input = true →
      lookupUser env input.userId = some .DEVELOPER →
      env.projects.contains input.projectId = true →
      input.customExpiryDate = none →
      findActivePermission perms input.userId input.projectId now = some e →
      GrantInv perms now →
      grantPermissionPipeline env perms now gid grole fid input =
        (Except.ok (), updatePermById perms e._id fun q =>
          { q with expiresAt := now + input.durationDays.getD 7 * dayMs,
                   grantedBy := gid, reason := input.reason }) ∧
      (updatePermById perms e._id fun q =>
          { q with expiresAt := now + input.durationDays.getD 7 * dayMs,
                   grantedBy := gid, reason := input.reason }).length =
        perms.length ∧
      findActivePermission
        (updatePermById perms e._id fun q =>
          { q with expiresAt := now + input.durationDays.getD 7 * dayMs,
                   grantedBy := gid, reason := input.reason })
        input.userId input.projectId now =
        some { e with expiresAt := now + input.durationDays.getD 7 * dayMs,
                      grantedBy := gid, reason := input.reason } ∧
      activeCount
        (updatePermById perms e._id fun q =>
          { q with expiresAt := now + input.durationDays.getD 7 * dayMs,
                   grantedBy := gid, reason := input.reason })
        input.userId input.projectId now = 1) := by
  constructor
  · intro env s ops t0 tEnd hnd hinv hchain
    exact runPerm_inv env ops s t0 tEnd hnd hinv hchain
  · intro env perms now gid grole fid input e hnd hrole hsch hlook hproj
      hcust hfind hinv
    have hrb : (grole == UserRole.MANAGER || grole == UserRole.GROUP_HEAD)
        = true := by
      rcases hrole with rfl | rfl <;> rfl
    have hmem : e ∈ perms := List.mem_of_find?_eq_some hfind
    have hePred : activePredicate input.userId input.projectId now e = true :=
      List.find?_some hfind
    have hact : e.isActive = true := by
      simp only [activePredicate, Bool.and_eq_true] at hePred
      exact hePred.1.2
    have hexp : now < e.expiresAt := by
      simp only [activePredicate, Bool.and_eq_true, decide_eq_true_eq]
        at hePred
      exact hePred.2
    have hePred' : activePredicate input.userId input.projectId now e = true :=
      List.find?_some hfind
    have hE : now < now + input.durationDays.getD 7 * dayMs :=
      Nat.lt_add_of_pos_right
        (Nat.mul_pos (grantSchemaValid_dur input hsch) (by decide))
    have hpt : ∀ q ∈ perms,
        activePredicate input.userId input.projectId now
          (if q._id == e._id then
            { q with expiresAt := now + input.durationDays.getD 7 * dayMs,
                     grantedBy := gid, reason := input.reason }
          else q) =
          activePredicate input.userId input.projectId now q := by
      intro q hq
      by_cases hid : (q._id == e._id) = true
      · have hqe : q = e := List.inj_on_of_nodup_map hnd hq hmem (eq_of_beq hid)
        subst hqe
        rw [if_pos hid]
        exact activePredicate_update_eq now _ q hact hexp hE gid input.reason
          _ _
      · rw [if_neg hid]
    refine ⟨?_, List.length_map perms _, ?_, ?_⟩
    · unfold grantPermissionPipeline grantTemporaryPermission grantCore
      rw [if_neg (by simp [hrb]), if_neg (by simp [hsch]),
        if_neg (by simp [hsch]), if_neg (by simp [hrb])]
      simp only [hlook]
      rw [if_neg (by simp), if_neg (by rw [hproj]; simp)]
      simp only [hcust, hfind]
    · unfold findActivePermission updatePermById
      unfold findActivePermission at hfind
      rw [find?_map_pointwise _ _ _ hpt, hfind, Option.map_some',
        if_pos (beq_self_eq_true e._id)]
    · unfold activeCount updatePermById
      rw [length_filter_map_eq _ _ _ hpt]
      have hpos : 0 <
          (perms.filter
            (activePredicate input.userId input.projectId now)).length :=
        List.length_pos.mpr
          (List.ne_nil_of_mem (List.mem_filter.mpr ⟨hmem, hePred'⟩))
      exact Nat.le_antisymm (hinv input.userId input.projectId) hpos

/-- C1 witness: a finalized report survives the midnight sweep unchanged. -/
theorem c1_witness :
    findReportById
      (reportStep
        ⟨[⟨1, 2, 0, .SUBMITTED, true, some 5, none, 0, 0, 0, none, none,
          none, []⟩], []⟩
        (ReportOp.sweepFinalize 0 10)).reports 1 =
      some ⟨1, 2, 0, .SUBMITTED, true, some 5, none, 0, 0, 0, none, none,
        none, []⟩ :=
  c1_final_report_immutable
    ⟨[⟨1, 2, 0, .SUBMITTED, true, some 5, none, 0, 0, 0, none, none,
      none, []⟩], []⟩
    (ReportOp.sweepFinalize 0 10)
    ⟨1, 2, 0, .SUBMITTED, true, some 5, none, 0, 0, 0, none, none, none, []⟩
    (by decide) (by simp [opFreshReportIds]) (List.mem_singleton_self _) rfl

/-- C2 witness: re-granting over an existing active grant leaves exactly
one active row for the pair. -/
theorem c2_witness :
    activeCount
      (updatePermById [⟨7, 2, 3, 9, 100, true, none⟩] 7 fun q =>
        { q with expiresAt := 50 + 3 * dayMs, grantedBy := 4,
                 reason := none })
      2 3 50 = 1 :=
  (c2_grant_uniqueness_and_merge.2 ⟨[(2, .DEVELOPER)], [3]⟩
    [⟨7, 2, 3, 9, 100, true, none⟩] 50 4 .MANAGER 8
    ⟨2, 3, some 3, none, none⟩ ⟨7, 2, 3, 9, 100, true, none⟩
    (by decide) (Or.inl rfl) (by decide) (by decide) (by decide) rfl
    (by decide) (fun u p => List.length_filter_le _ _)).2.2.2

/-- C3 witness: a developer holding an active grant may assign to a
developer in that project. -/
theorem c3_witness :
    (canAssignTaskToUser [⟨1, 2, 3, 4, 10, true, none⟩] 2 .DEVELOPER 3 5
      .DEVELOPER).1 = true :=
  ((c3_canAssignTaskToUser_characterization [⟨1, 2, 3, 4, 10, true, none⟩]
    2 .DEVELOPER 3 5 .DEVELOPER).1).mpr
    ⟨rfl, Or.inr (Or.inr (Or.inr ⟨rfl,
      ⟨⟨1, 2, 3, 4, 10, true, none⟩, List.mem_singleton_self _,
        by decide⟩⟩))⟩

/-- C4 witness: a valid scheduled submission succeeds. -/
theorem c4_witness :
    (submitEODReport ⟨[], []⟩ .DEVELOPER 1 [] 100 0 999 5 50
      ⟨none, some 200, false, none, none, none, none, none, none, none,
        none, none⟩).1 = Except.ok () :=
  ((c4_scheduled_submit_validation ⟨[], []⟩ 1 [] 100 0 999 5 50
    ⟨none, some 200, false, none, none, none, none, none, none, none,
      none, none⟩
    (freshDraft 5 1 0) _ (by decide) (by simp) rfl rfl rfl (by decide) rfl
    rfl rfl).2.2.2 200 rfl (by decide) (by decide)).1

/-- C6 witness: an expired grant's notification precedes its flag flip in
the sweep's event trace. -/
theorem c6_amended_witness :
    List.Sublist [ExpireEvent.notifyExpired 1, ExpireEvent.deactivate 1]
      (expirePermissions [⟨1, 10, 20, 5, 50, true, none⟩] 100).2 :=
  (c6_amended_notify_before_bulk_flip [⟨1, 10, 20, 5, 50, true, none⟩]
    100).1 ⟨1, 10, 20, 5, 50, true, none⟩ (List.mem_singleton_self _)
    (by decide)

/-- C7 witness: an in-progress entry without a progress value produces a
row with progress 0. -/
theorem c7_witness :
    (buildEodTaskRows 0 1 [] [⟨9, EODTaskStatus.IN_PROGRESS, none⟩]).map
      (·.progress) = [0] :=
  (c7_task_progress_invariant ⟨[], []⟩
    (fun t ht => absurd ht (List.not_mem_nil t))).2.2 0 1
    ⟨9, EODTaskStatus.IN_PROGRESS, none⟩ rfl

/-- C8 witness: an unauthorized grant call is rejected by the authorize
middleware regardless of payload or state. -/
theorem c8_amended_witness :
    grantPermissionPipeline ⟨[], []⟩ [] 0 1 .DEVELOPER 9
      ⟨2, 3, none, none, none⟩ =
      (Except.error .InsufficientPermissions, []) :=
  c8_amended_authorization_order.1 ⟨[], []⟩ [] 0 1 .DEVELOPER 9
    ⟨2, 3, none, none, none⟩ (by decide) (by decide)

/-- C9 witness: submitting with `submitNow=false` and no scheduled time
fails with the missing-time error (after the draft has been created). -/
theorem c9_witness :
    (submitEODReport ⟨[], []⟩ .DEVELOPER 1 [] 100 0 999 5 50
      ⟨none, none, false, none, none, none, none, none, none, none, none,
        none⟩).1 = Except.error .ScheduledTimeMissing :=
  (((c9_failed_submit_keeps_created_draft ⟨[], []⟩ 1 [] 100 0 999 5 50
    ⟨none, none, false, none, none, none, none, none, none, none, none,
      none⟩ _ rfl (by simp) (by decide) rfl rfl).2 (by decide) rfl).1
    rfl).1

/-- C10 witness: granting to a nonexistent user fails with the not-found
error and an unchanged table. -/
theorem c10_witness :
    grantPermissionPipeline ⟨[], []⟩ [] 0 1 .MANAGER 9
      ⟨2, 3, none, none, none⟩ = (Except.error .UserNotFound, []) :=
  (c10_grant_target_checks ⟨[], []⟩ [] 0 1 .MANAGER 9
    ⟨2, 3, none, none, none⟩ (Or.inl rfl) (by decide)).1 rfl

end ProjMgmt

